import Mathlib

/-
Verification of the W25QXX serial NOR flash driver (src/w25qxx.rs).

The driver is embedded shallowly as state-passing functions over an explicit
bus trace.  The SPI transceiver and the chip are abstracted by an oracle
`Env` giving, for each `spi.write` call, whether it succeeds (and the size
the call reports), and for each `spi.read` call, the bytes the chip answers
(or `none` for a bus failure).  The state `St` records the trace of bus
events (chip-select transitions, writes, reads, sleeps) together with the
number of write/read calls made so far (the indices into the oracle).

Rust `Result::Err(Error::SPIError(()))` is modelled by `Out.err`;
`unwrap` / `expect` on a failing result (process termination) by
`Out.crash`; loops are given fuel, and running out of fuel (a loop that in
Rust would still be running) is `Out.spin`.  Machine integers are modelled
as `Nat` with explicit `% 2^32` where u32 overflow matters (release-mode
wrapping semantics).
-/

namespace W25qxx

/-! ## Constants from the source -/

def W25QXX_MANID_VALUE : Nat := 0xEF

def W25QXX_DEVID_VALUE_128 : Nat := 0x17

def W25QXX_PAGE_SIZE : Nat := 256

def W25QXX_SECTOR_SIZE : Nat := 4 * 1024

def W25QXX_BLOCK32K_SIZE : Nat := 32 * 1024

def W25QXX_BLOCK64K_SIZE : Nat := 64 * 1024

namespace Command

def Jedec : Nat := 0x90

def PageProgram : Nat := 0x02

def ReadData : Nat := 0x03

def FastRead : Nat := 0x0B

def ReadStatusRegister1 : Nat := 0x05

def ReadStatusRegister2 : Nat := 0x35

def WriteEnable : Nat := 0x06

def SectorErase : Nat := 0x20

def Block32Erase : Nat := 0x52

def Block64Erase : Nat := 0xD8

def ChipErase : Nat := 0xC7

def EnableReset : Nat := 0x66

def Reset : Nat := 0x99

end Command

namespace StatusRegister

def Busy : Nat := 0x01

def WriteEnable : Nat := 0x02

end StatusRegister

/-! ## Bus events, oracle, driver state, outcomes -/

/-- One observable bus action: chip-select low/high, an `spi.write` call
(bytes written, whether the underlying call succeeded), an `spi.read` call
(bytes received, whether it succeeded), or the 1 ms sleep of the busy loop. -/
inductive Ev : Type
  | csLow : Ev
  | csHigh : Ev
  | write : List Nat → Bool → Ev
  | read : List Nat → Bool → Ev
  | sleep : Ev
deriving DecidableEq

/-- Oracle for the SPI bus: result of the k-th `spi.write` call
(`none` = bus error, `some n` = `Ok(n)`), and response of the k-th
`spi.read` call (`none` = bus error). -/
structure Env : Type where
  writeRes : Nat → Option Nat
  readRes : Nat → Option (List Nat)

/-- Driver state: accumulated bus trace plus the number of `spi.write` and
`spi.read` calls made so far. -/
structure St : Type where
  trace : List Ev
  nw : Nat
  nr : Nat
deriving DecidableEq

def St.init : St := ⟨[], 0, 0⟩

/-- Outcome of a driver call: `ok` = `Ok`, `err` = `Err(Error::SPIError(()))`,
`crash` = process termination through `unwrap`/`expect`,
`spin` = a loop still running when its fuel ran out. -/
inductive Out (α : Type) : Type
  | ok : α → Out α
  | err : Out α
  | crash : Out α
  | spin : Out α
deriving DecidableEq

/-- Sequencing: continue on `Ok`, propagate `Err`, a panic, or a spin
(this is Rust `?` / normal control flow after a returning call). -/
def andThen {α β : Type} (r : Out α × St) (f : α → St → Out β × St) : Out β × St :=
  match r with
  | (Out.ok a, s) => f a s
  | (Out.err, s) => (Out.err, s)
  | (Out.crash, s) => (Out.crash, s)
  | (Out.spin, s) => (Out.spin, s)

/-! ## Bus primitives -/

def csLowOp (s : St) : St := { s with trace := s.trace ++ [Ev.csLow] }

def csHighOp (s : St) : St := { s with trace := s.trace ++ [Ev.csHigh] }

def sleepOp (s : St) : St := { s with trace := s.trace ++ [Ev.sleep] }

/-- `self.spi.write(bs)`: consult the oracle, log the attempt. -/
def spiWrite (env : Env) (bs : List Nat) (s : St) : Option Nat × St :=
  match env.writeRes s.nw with
  | some n => (some n, { s with trace := s.trace ++ [Ev.write bs true], nw := s.nw + 1 })
  | none => (none, { s with trace := s.trace ++ [Ev.write bs false], nw := s.nw + 1 })

/-- An `n`-byte read buffer filled from the chip's answer (missing bytes
stay zero, extra bytes are not stored). -/
def fill (n : Nat) (bs : List Nat) : List Nat := (bs ++ List.replicate n 0).take n

/-- `self.spi.read(buf)` for a buffer of length `n`. -/
def spiRead (env : Env) (n : Nat) (s : St) : Option (List Nat) × St :=
  match env.readRes s.nr with
  | some bs => (some (fill n bs), { s with trace := s.trace ++ [Ev.read (fill n bs) true], nr := s.nr + 1 })
  | none => (none, { s with trace := s.trace ++ [Ev.read [] false], nr := s.nr + 1 })

/-- The 3 address bytes sent on the wire, big-endian:
`(address >> 16) & 0xFF`, `(address >> 8) & 0xFF`, `address & 0xFF`. -/
def addrBytes (address : Nat) : List Nat :=
  [address / 65536 % 256, address / 256 % 256, address % 256]

/-! ## The driver functions (one Lean definition per Rust function) -/

/-- Receive phase of `spi_transmit_and_receive`: read `rxLen` bytes if the
buffer is non-empty, then chip-select high. -/
def spiTarRead (env : Env) (rxLen : Nat) (s : St) : Out (List Nat) × St :=
  if rxLen = 0 then (Out.ok [], csHighOp s)
  else
    match spiRead env rxLen s with
    | (none, s1) => (Out.crash, s1)
    | (some bs, s1) => (Out.ok bs, csHighOp s1)

/-- Dummy phase of `spi_transmit_and_receive`: one zero byte if requested. -/
def spiTarDummy (env : Env) (rxLen dummy : Nat) (s : St) : Out (List Nat) × St :=
  if dummy > 0 then
    match spiWrite env [0] s with
    | (none, s1) => (Out.crash, s1)
    | (some _, s1) => spiTarRead env rxLen s1
  else spiTarRead env rxLen s

/-- `fn spi_transmit_and_receive(&mut self, tx_buffer, rx_buffer, dummy_bytes)`.
All bus failures inside it are `unwrap`ed, so it never returns `Err`. -/
def spi_transmit_and_receive (env : Env) (tx : List Nat) (rxLen dummy : Nat) (s : St) :
    Out (List Nat) × St :=
  let s1 := csLowOp s
  if tx = [] then spiTarDummy env rxLen dummy s1
  else
    match spiWrite env tx s1 with
    | (none, s2) => (Out.crash, s2)
    | (some _, s2) => spiTarDummy env rxLen dummy s2

/-- `fn spi_transmit(&mut self, cmd, address, tx_buffer)`.
Note: on a failing header write it returns `Err` before the
`cs.set_high()` line, leaving chip-select asserted; a failing payload
write is `unwrap`ed. -/
def spi_transmit (env : Env) (cmd address : Nat) (tx : List Nat) (s : St) : Out Unit × St :=
  let s1 := csLowOp s
  match spiWrite env (cmd :: addrBytes address) s1 with
  | (none, s2) => (Out.err, s2)
  | (some n, s2) =>
    if n > 0 ∧ tx ≠ [] then
      match spiWrite env tx s2 with
      | (none, s3) => (Out.crash, s3)
      | (some _, s3) => (Out.ok (), csHighOp s3)
    else (Out.ok (), csHighOp s2)

/-- `fn read_status_register(&mut self, reg_num)`. -/
def read_status_register (env : Env) (regNum : Nat) (s : St) : Out Nat × St :=
  if regNum = 1 then
    andThen (spi_transmit_and_receive env [Command.ReadStatusRegister1] 1 0 s)
      (fun bs s1 => (Out.ok (bs.headD 0), s1))
  else if regNum = 2 then
    andThen (spi_transmit_and_receive env [Command.ReadStatusRegister2] 1 0 s)
      (fun bs s1 => (Out.ok (bs.headD 0), s1))
  else (Out.err, s)

/-- `fn is_busy(&mut self)`: `read_status_register(1).unwrap() & Busy != 0`. -/
def is_busy (env : Env) (s : St) : Out Bool × St :=
  match read_status_register env 1 s with
  | (Out.ok b, s1) => (Out.ok (if b &&& StatusRegister.Busy = 0 then false else true), s1)
  | (Out.err, s1) => (Out.crash, s1)
  | (Out.crash, s1) => (Out.crash, s1)
  | (Out.spin, s1) => (Out.spin, s1)

/-- `fn busy_wait(&mut self)`: poll `is_busy`, sleeping between polls.
The `expect` maps an inner `Err` to a panic; `fuel` bounds the number of
polls modelled. -/
def busy_wait (env : Env) : Nat → St → Out Unit × St
  | 0, s => (Out.spin, s)
  | fuel + 1, s =>
    match is_busy env s with
    | (Out.ok true, s1) => busy_wait env fuel (sleepOp s1)
    | (Out.ok false, s1) => (Out.ok (), s1)
    | (Out.err, s1) => (Out.crash, s1)
    | (Out.crash, s1) => (Out.crash, s1)
    | (Out.spin, s1) => (Out.spin, s1)

/-- `fn is_write_enable(&mut self)`: `read_status_register(1).unwrap() & WriteEnable != 0`. -/
def is_write_enable (env : Env) (s : St) : Out Bool × St :=
  match read_status_register env 1 s with
  | (Out.ok b, s1) => (Out.ok (if b &&& StatusRegister.WriteEnable = 0 then false else true), s1)
  | (Out.err, s1) => (Out.crash, s1)
  | (Out.crash, s1) => (Out.crash, s1)
  | (Out.spin, s1) => (Out.spin, s1)

/-- `fn write_enable(&mut self)`: send the write-enable opcode, then fail
with a protocol error unless the latch bit reads back set. -/
def write_enable (env : Env) (s : St) : Out Unit × St :=
  andThen (spi_transmit_and_receive env [Command.WriteEnable] 0 0 s) (fun _ s1 =>
  andThen (is_write_enable env s1) (fun b s2 =>
    if b then (Out.ok (), s2) else (Out.err, s2)))

/-- `fn page_program(&mut self, address, tx_buffer)`. -/
def page_program (env : Env) (address : Nat) (tx : List Nat) (s : St) : Out Unit × St :=
  if tx = [] ∨ tx.length = 0 ∨ W25QXX_PAGE_SIZE < tx.length then (Out.err, s)
  else
    andThen (write_enable env s) (fun _ s1 =>
      spi_transmit env Command.PageProgram address tx s1)

/-- `fn erase_cmd(&mut self, address, cmd)`. -/
def erase_cmd (env : Env) (address cmd : Nat) (s : St) : Out Unit × St :=
  andThen (write_enable env s) (fun _ s1 =>
    spi_transmit env cmd address [] s1)

/-- `fn fast_read(&mut self, address, rx_buffer)` for a buffer of length `rxLen`. -/
def fast_read (env : Env) (address rxLen : Nat) (s : St) : Out (List Nat) × St :=
  if rxLen = 0 then (Out.err, s)
  else spi_transmit_and_receive env (Command.FastRead :: addrBytes address) rxLen 1 s

/-- `pub fn read(&mut self, address, buffer)`. -/
def read (env : Env) (address rxLen : Nat) (s : St) : Out (List Nat) × St :=
  fast_read env address rxLen s

/-- `fn read_jedec_register(&mut self)`: send `[0x90, 0, 0, 0]`, receive
2 bytes, compare against the expected manufacturer/device codes.  The
result of the bus call itself is discarded (`let _ =`); were it an `Err`
the still-zero receive buffer would fail the comparison. -/
def read_jedec_register (env : Env) (s : St) : Out Unit × St :=
  match spi_transmit_and_receive env [Command.Jedec, 0, 0, 0] 2 0 s with
  | (Out.ok bs, s1) =>
    if bs.headD 0 ≠ W25QXX_MANID_VALUE ∨ bs.getD 1 0 ≠ W25QXX_DEVID_VALUE_128 then (Out.err, s1)
    else (Out.ok (), s1)
  | (Out.err, s1) => (Out.err, s1)
  | (Out.crash, s1) => (Out.crash, s1)
  | (Out.spin, s1) => (Out.spin, s1)

/-- `fn reset(&mut self)`: wait until not busy, then two raw single-byte
`spi.write` calls (`unwrap`ed), with no chip-select operation. -/
def reset (env : Env) (bfuel : Nat) (s : St) : Out Unit × St :=
  andThen (busy_wait env bfuel s) (fun _ s1 =>
    match spiWrite env [Command.EnableReset] s1 with
    | (none, s2) => (Out.crash, s2)
    | (some _, s2) =>
      match spiWrite env [Command.Reset] s2 with
      | (none, s3) => (Out.crash, s3)
      | (some _, s3) => (Out.ok (), s3))

/-- `pub fn init(&mut self)`: identify, then reset. -/
def init (env : Env) (bfuel : Nat) (s : St) : Out Unit × St :=
  andThen (read_jedec_register env s) (fun _ s1 => reset env bfuel s1)

/-- `pub fn chip_erase(&mut self)`. -/
def chip_erase (env : Env) (bfuel : Nat) (s : St) : Out Unit × St :=
  andThen (busy_wait env bfuel s) (fun _ s1 =>
  andThen (write_enable env s1) (fun _ s2 =>
  andThen (spi_transmit_and_receive env [Command.ChipErase] 0 0 s2) (fun _ s3 =>
    (Out.ok (), s3))))

/-- The `while size > 0` loop of `pub fn write`, on the remaining buffer
suffix.  A failing `page_program` is discarded (`let _ =`), so the loop
continues past `Err`; a panic or exhausted busy fuel propagates. -/
def writeLoop (env : Env) (bfuel : Nat) : Nat → Nat → List Nat → St → Out Unit × St
  | 0, _, buf, s => if buf = [] then (Out.ok (), s) else (Out.spin, s)
  | fuel + 1, addr, buf, s =>
    if buf = [] then (Out.ok (), s)
    else
      andThen (busy_wait env bfuel s) (fun _ s1 =>
        match page_program env addr (buf.take (min (W25QXX_PAGE_SIZE - addr % W25QXX_PAGE_SIZE) buf.length)) s1 with
        | (Out.ok _, s2) =>
          writeLoop env bfuel fuel
            ((addr + min (W25QXX_PAGE_SIZE - addr % W25QXX_PAGE_SIZE) buf.length) % 4294967296)
            (buf.drop (min (W25QXX_PAGE_SIZE - addr % W25QXX_PAGE_SIZE) buf.length)) s2
        | (Out.err, s2) =>
          writeLoop env bfuel fuel
            ((addr + min (W25QXX_PAGE_SIZE - addr % W25QXX_PAGE_SIZE) buf.length) % 4294967296)
            (buf.drop (min (W25QXX_PAGE_SIZE - addr % W25QXX_PAGE_SIZE) buf.length)) s2
        | (Out.crash, s2) => (Out.crash, s2)
        | (Out.spin, s2) => (Out.spin, s2))

/-- `pub fn write(&mut self, address, buffer)`.  The loop runs at most
`buffer.len()` iterations (each consumes at least one byte), so fuel
`buffer.length + 1` is not a restriction. -/
def write (env : Env) (bfuel address : Nat) (buf : List Nat) (s : St) : Out Unit × St :=
  writeLoop env bfuel (buf.length + 1) address buf s

/-- The `while addr < u_end` loop of `pub fn erase`.  Branch order and
conditions are those of the source: 64K block, then 32K block, then 4K
sector, else the unreachable-alignment error. -/
def eraseLoop (env : Env) (bfuel : Nat) : Nat → Nat → Nat → Nat → St → Out Unit × St
  | 0, addr, _, uEnd, s => if addr < uEnd then (Out.spin, s) else (Out.ok (), s)
  | fuel + 1, addr, size, uEnd, s =>
    if addr < uEnd then
      if addr % W25QXX_BLOCK64K_SIZE = 0 ∧ W25QXX_BLOCK64K_SIZE ≤ size then
        andThen (busy_wait env bfuel s) (fun _ s1 =>
        andThen (erase_cmd env addr Command.Block64Erase s1) (fun _ s2 =>
          eraseLoop env bfuel fuel ((addr + W25QXX_BLOCK64K_SIZE) % 4294967296)
            (size - W25QXX_BLOCK64K_SIZE) uEnd s2))
      else if addr % W25QXX_BLOCK32K_SIZE = 0 ∧ W25QXX_BLOCK32K_SIZE ≤ size then
        andThen (busy_wait env bfuel s) (fun _ s1 =>
        andThen (erase_cmd env addr Command.Block32Erase s1) (fun _ s2 =>
          eraseLoop env bfuel fuel ((addr + W25QXX_BLOCK32K_SIZE) % 4294967296)
            (size - W25QXX_BLOCK32K_SIZE) uEnd s2))
      else if addr % W25QXX_SECTOR_SIZE = 0 ∧ W25QXX_SECTOR_SIZE ≤ size then
        andThen (busy_wait env bfuel s) (fun _ s1 =>
        andThen (erase_cmd env addr Command.SectorErase s1) (fun _ s2 =>
          eraseLoop env bfuel fuel ((addr + W25QXX_SECTOR_SIZE) % 4294967296)
            (size - W25QXX_SECTOR_SIZE) uEnd s2))
      else (Out.err, s)
    else (Out.ok (), s)

/-- `pub fn erase(&mut self, address, len)`.  `u_end` is the u32 sum
`address + len as u32` (wrapping, with `len` truncated to 32 bits).  The
loop runs at most `len / 4096` iterations plus the final test, so fuel
`len / 4096 + 1` is not a restriction. -/
def erase (env : Env) (bfuel address len : Nat) (s : St) : Out Unit × St :=
  if address % W25QXX_SECTOR_SIZE ≠ 0 ∨ len % W25QXX_SECTOR_SIZE ≠ 0 then (Out.err, s)
  else
    eraseLoop env bfuel (len / W25QXX_SECTOR_SIZE + 1) address len
      ((address + len % 4294967296) % 4294967296) s

/-! ## Oracles used in the theorems -/

/-- Every bus call succeeds; every status read answers `0x02`
(busy clear, write-enable latch set). -/
def happyEnv : Env := ⟨fun _ => some 4, fun _ => some [2]⟩

/-- Every bus call fails. -/
def allFailEnv : Env := ⟨fun _ => none, fun _ => none⟩

/-- The first write succeeds, every later write fails; reads answer `0x02`. -/
def payloadFailEnv : Env := ⟨fun k => if k = 0 then some 4 else none, fun _ => some [2]⟩

/-- Writes succeed, every read fails. -/
def readFailEnv : Env := ⟨fun _ => some 4, fun _ => none⟩

/-- Writes succeed; the status register always reads `0x00`
(busy clear, write-enable latch clear). -/
def latchClearEnv : Env := ⟨fun _ => some 4, fun _ => some [0]⟩

/-- The identification read answers `[b0, b1]`; all later reads answer `0`
(busy clear); every write succeeds. -/
def idEnv (b0 b1 : Nat) : Env :=
  ⟨fun _ => some 4, fun k => if k = 0 then some [b0, b1] else some [0]⟩

/-- Every fourth write — exactly the page-program command headers in a run
of `write` — fails; everything else succeeds, status reads answer `0x02`. -/
def headerFailEnv : Env :=
  ⟨fun k => if k % 4 = 3 then none else some 4, fun _ => some [2]⟩

/-! ## Trace shapes of the happy path -/

/-- Bus trace of one successful `read_status_register(1)` call answering `b`. -/
def rsrTrace (b : Nat) : List Ev :=
  [Ev.csLow, Ev.write [Command.ReadStatusRegister1] true, Ev.read [b] true, Ev.csHigh]

/-- Bus trace of a `busy_wait` call that immediately sees the busy bit clear. -/
def busyTrace : List Ev := rsrTrace 2

/-- Bus trace of a `write_enable` call whose status read answers `b`:
the write-enable transaction followed by the status-register-1 transaction. -/
def weSuccessTrace (b : Nat) : List Ev :=
  [Ev.csLow, Ev.write [Command.WriteEnable] true, Ev.csHigh] ++ rsrTrace b

/-- Successful write-enable handshake under `happyEnv` (status answers 2). -/
def weTrace : List Ev := weSuccessTrace 2

/-- Bus trace of one successful `spi_transmit` with an empty payload. -/
def cmdTrace (cmd addr : Nat) : List Ev :=
  [Ev.csLow, Ev.write (cmd :: addrBytes addr) true, Ev.csHigh]

/-- Bus trace of one successful `spi_transmit` of a page-program command
with payload `chunk`. -/
def ppTrace (addr : Nat) (chunk : List Nat) : List Ev :=
  [Ev.csLow, Ev.write (Command.PageProgram :: addrBytes addr) true, Ev.write chunk true, Ev.csHigh]

/-! ## Step lemmas under `happyEnv` -/

theorem spiWrite_happy (bs : List Nat) (s : St) :
    spiWrite happyEnv bs s =
      (some 4, { s with trace := s.trace ++ [Ev.write bs true], nw := s.nw + 1 }) := by
  simp [spiWrite, happyEnv]

theorem rsr1_happy (s : St) :
    read_status_register happyEnv 1 s = (Out.ok 2, ⟨s.trace ++ rsrTrace 2, s.nw + 1, s.nr + 1⟩) := by
  simp [read_status_register, spi_transmit_and_receive, spiTarDummy, spiTarRead, spiWrite,
    spiRead, csLowOp, csHighOp, andThen, happyEnv, fill, rsrTrace, Command.ReadStatusRegister1]

theorem busy_wait_happy (f : Nat) (s : St) :
    busy_wait happyEnv (f + 1) s = (Out.ok (), ⟨s.trace ++ busyTrace, s.nw + 1, s.nr + 1⟩) := by
  simp [busy_wait, is_busy, rsr1_happy, StatusRegister.Busy, busyTrace]

theorem wecmd_happy (s : St) :
    spi_transmit_and_receive happyEnv [Command.WriteEnable] 0 0 s =
      (Out.ok [], ⟨s.trace ++ [Ev.csLow, Ev.write [Command.WriteEnable] true, Ev.csHigh], s.nw + 1, s.nr⟩) := by
  simp [spi_transmit_and_receive, spiTarDummy, spiTarRead, spiWrite, csLowOp, csHighOp, happyEnv,
    Command.WriteEnable]

theorem write_enable_happy (s : St) :
    write_enable happyEnv s = (Out.ok (), ⟨s.trace ++ weTrace, s.nw + 2, s.nr + 1⟩) := by
  simp [write_enable, andThen, wecmd_happy, is_write_enable, rsr1_happy,
    StatusRegister.WriteEnable, weTrace, weSuccessTrace, rsrTrace, Nat.add_assoc]

theorem spi_transmit_happy_empty (cmd addr : Nat) (s : St) :
    spi_transmit happyEnv cmd addr [] s = (Out.ok (), ⟨s.trace ++ cmdTrace cmd addr, s.nw + 1, s.nr⟩) := by
  simp [spi_transmit, spiWrite, csLowOp, csHighOp, happyEnv, cmdTrace]

theorem erase_cmd_happy (addr cmd : Nat) (s : St) :
    erase_cmd happyEnv addr cmd s =
      (Out.ok (), ⟨s.trace ++ (weTrace ++ cmdTrace cmd addr), s.nw + 3, s.nr + 1⟩) := by
  simp [erase_cmd, andThen, write_enable_happy, spi_transmit_happy_empty, List.append_assoc,
    Nat.add_assoc]

theorem spi_transmit_happy_chunk (addr : Nat) (chunk : List Nat) (h : chunk ≠ []) (s : St) :
    spi_transmit happyEnv Command.PageProgram addr chunk s =
      (Out.ok (), ⟨s.trace ++ ppTrace addr chunk, s.nw + 2, s.nr⟩) := by
  simp [spi_transmit, spiWrite, csLowOp, csHighOp, happyEnv, ppTrace, h, Nat.add_assoc]

theorem page_program_happy (addr : Nat) (chunk : List Nat) (h1 : chunk ≠ [])
    (h2 : chunk.length ≤ W25QXX_PAGE_SIZE) (s : St) :
    page_program happyEnv addr chunk s =
      (Out.ok (), ⟨s.trace ++ (weTrace ++ ppTrace addr chunk), s.nw + 4, s.nr + 1⟩) := by
  have h3 : ¬ W25QXX_PAGE_SIZE < chunk.length := by omega
  simp [page_program, h1, h3, andThen, write_enable_happy, spi_transmit_happy_chunk _ _ h1,
    List.append_assoc, Nat.add_assoc]

theorem reset_happy (f : Nat) (s : St) :
    reset happyEnv (f + 1) s =
      (Out.ok (), ⟨s.trace ++ busyTrace ++ [Ev.write [Command.EnableReset] true, Ev.write [Command.Reset] true],
        s.nw + 3, s.nr + 1⟩) := by
  simp [reset, andThen, busy_wait_happy, spiWrite_happy, List.append_assoc, Nat.add_assoc]

/-! ## Transaction extraction from traces -/

/-- Is `op` one of the three range-erase opcodes? -/
def eraseOpcode (op : Nat) : Bool :=
  op = Command.SectorErase || op = Command.Block32Erase || op = Command.Block64Erase

/-- The erase transactions of a trace: every successful 4-byte command write
whose opcode is an erase opcode, as (wire address, opcode). -/
def eraseTxns : List Ev → List (Nat × Nat)
  | Ev.write [op, a2, a1, a0] true :: t =>
    if eraseOpcode op then (a2 * 65536 + a1 * 256 + a0, op) :: eraseTxns t else eraseTxns t
  | _ :: t => eraseTxns t
  | [] => []

/-- The page-program transactions of a trace: every successful 4-byte
page-program header write followed by its payload write, as
(wire address, payload). -/
def progTxns : List Ev → List (Nat × List Nat)
  | Ev.write [op, a2, a1, a0] true :: Ev.write payload true :: t =>
    if op = Command.PageProgram then (a2 * 65536 + a1 * 256 + a0, payload) :: progTxns t
    else progTxns (Ev.write payload true :: t)
  | _ :: t => progTxns t
  | [] => []

/-- An address as it appears on the 3-byte wire encoding. -/
def wireTx (p : Nat × Nat) : Nat × Nat := (p.1 % 16777216, p.2)

def wireChunk (p : Nat × List Nat) : Nat × List Nat := (p.1 % 16777216, p.2)

/-! ## The greedy erase schedule, modelled from the claim text -/

/-- Modelled from the claim: at starting address `addr` with `size` bytes
remaining, pick `Block64Erase` when the address is 65536-aligned and at
least 65536 bytes remain, else `Block32Erase` when 32768-aligned and at
least 32768 bytes remain, else `SectorErase`; returns (opcode, advance). -/
def greedyChoice (addr size : Nat) : Nat × Nat :=
  if addr % W25QXX_BLOCK64K_SIZE = 0 ∧ W25QXX_BLOCK64K_SIZE ≤ size then
    (Command.Block64Erase, W25QXX_BLOCK64K_SIZE)
  else if addr % W25QXX_BLOCK32K_SIZE = 0 ∧ W25QXX_BLOCK32K_SIZE ≤ size then
    (Command.Block32Erase, W25QXX_BLOCK32K_SIZE)
  else (Command.SectorErase, W25QXX_SECTOR_SIZE)

/-- Modelled from the claim: the sequence of (address, opcode) erase
transactions produced by applying the greedy rule until nothing remains. -/
def greedySchedule : Nat → Nat → Nat → List (Nat × Nat)
  | 0, _, _ => []
  | fuel + 1, addr, size =>
    if size = 0 then []
    else (addr, (greedyChoice addr size).1) ::
      greedySchedule fuel (addr + (greedyChoice addr size).2) (size - (greedyChoice addr size).2)

/-- The advance of an erase transaction, determined by its opcode. -/
def advOf (op : Nat) : Nat :=
  if op = Command.Block64Erase then W25QXX_BLOCK64K_SIZE
  else if op = Command.Block32Erase then W25QXX_BLOCK32K_SIZE
  else W25QXX_SECTOR_SIZE

/-- Sum of the advances of a list of erase transactions. -/
def sumAdv (l : List (Nat × Nat)) : Nat := (l.map (fun p => advOf p.2)).sum

/-- Happy-path bus trace of one iteration of the erase loop. -/
def eraseIterTrace (addr op : Nat) : List Ev := busyTrace ++ (weTrace ++ cmdTrace op addr)

/-- Happy-path bus trace of a whole erase schedule. -/
def eraseTraceOf : List (Nat × Nat) → List Ev
  | [] => []
  | (a, op) :: t => eraseIterTrace a op ++ eraseTraceOf t

/-- Happy-path bus trace of one iteration of the write loop. -/
def writeIterTrace (addr : Nat) (chunk : List Nat) : List Ev :=
  busyTrace ++ (weTrace ++ ppTrace addr chunk)

/-- Happy-path bus trace of a whole write chunking. -/
def writeTraceOf : List (Nat × List Nat) → List Ev
  | [] => []
  | (a, c) :: t => writeIterTrace a c ++ writeTraceOf t

/-- The chunk sequence of the write loop: at each step the chunk runs from
the current address to at most the end of its 256-byte page. -/
def writeChunks : Nat → Nat → List Nat → List (Nat × List Nat)
  | 0, _, _ => []
  | fuel + 1, addr, buf =>
    if buf = [] then []
    else
      (addr, buf.take (min (W25QXX_PAGE_SIZE - addr % W25QXX_PAGE_SIZE) buf.length)) ::
        writeChunks fuel
          ((addr + min (W25QXX_PAGE_SIZE - addr % W25QXX_PAGE_SIZE) buf.length) % 4294967296)
          (buf.drop (min (W25QXX_PAGE_SIZE - addr % W25QXX_PAGE_SIZE) buf.length))

end W25qxx

namespace W25qxx

theorem erase_step_happy (bf addr cmd : Nat) (s : St) (K : St → Out Unit × St) :
    andThen (busy_wait happyEnv (bf + 1) s) (fun _ s1 =>
      andThen (erase_cmd happyEnv addr cmd s1) (fun _ s2 => K s2)) =
    K ⟨s.trace ++ eraseIterTrace addr cmd, s.nw + 4, s.nr + 2⟩ := by
  simp [andThen, busy_wait_happy, erase_cmd_happy, eraseIterTrace, List.append_assoc, Nat.add_assoc]

theorem eraseLoop_happy (bf : Nat) : ∀ (fuel addr size : Nat) (s : St),
    addr % 4096 = 0 → size % 4096 = 0 → addr + size < 4294967296 → size ≤ 4096 * fuel →
    ∃ s2, eraseLoop happyEnv (bf + 1) fuel addr size (addr + size) s = (Out.ok (), s2) ∧
      s2.trace = s.trace ++ eraseTraceOf (greedySchedule fuel addr size) := by
  intro fuel
  induction fuel with
  | zero =>
    intro addr size s h1 h2 h3 h4
    have hz : size = 0 := by omega
    subst hz
    exact ⟨s, by simp [eraseLoop, greedySchedule, eraseTraceOf]⟩
  | succ n ih =>
    intro addr size s h1 h2 h3 h4
    by_cases hz : size = 0
    · subst hz
      exact ⟨s, by simp [eraseLoop, greedySchedule, eraseTraceOf]⟩
    · have hlt : addr < addr + size := by omega
      rw [eraseLoop, if_pos hlt]
      by_cases h64 : addr % W25QXX_BLOCK64K_SIZE = 0 ∧ W25QXX_BLOCK64K_SIZE ≤ size
      · have h64' : addr % 65536 = 0 ∧ 65536 ≤ size := h64
        rw [if_pos h64, erase_step_happy]
        have hmod : (addr + W25QXX_BLOCK64K_SIZE) % 4294967296 = addr + 65536 := by
          simp only [W25QXX_BLOCK64K_SIZE]; omega
        rw [hmod]
        obtain ⟨s2, he, ht⟩ := ih (addr + 65536) (size - 65536)
          ⟨s.trace ++ eraseIterTrace addr Command.Block64Erase, s.nw + 4, s.nr + 2⟩
          (by omega) (by omega) (by omega) (by omega)
        have harg : addr + 65536 + (size - 65536) = addr + size := by omega
        rw [harg] at he
        have hsz : W25QXX_BLOCK64K_SIZE - 0 = 65536 := rfl
        refine ⟨s2, ?_, ?_⟩
        · show eraseLoop happyEnv (bf + 1) n (addr + 65536) (size - W25QXX_BLOCK64K_SIZE) (addr + size) _ = _
          have : size - W25QXX_BLOCK64K_SIZE = size - 65536 := rfl
          rw [this]; exact he
        · rw [ht]
          rw [greedySchedule, if_neg hz]
          have hc : greedyChoice addr size = (Command.Block64Erase, W25QXX_BLOCK64K_SIZE) := by
            rw [greedyChoice, if_pos h64]
          simp [hc, eraseTraceOf, List.append_assoc, W25QXX_BLOCK64K_SIZE]
      · rw [if_neg h64]
        by_cases h32 : addr % W25QXX_BLOCK32K_SIZE = 0 ∧ W25QXX_BLOCK32K_SIZE ≤ size
        · have h32' : addr % 32768 = 0 ∧ 32768 ≤ size := h32
          rw [if_pos h32, erase_step_happy]
          have hmod : (addr + W25QXX_BLOCK32K_SIZE) % 4294967296 = addr + 32768 := by
            have h32n := h32'
            simp only [W25QXX_BLOCK32K_SIZE]; omega
          rw [hmod]
          obtain ⟨s2, he, ht⟩ := ih (addr + 32768) (size - 32768)
            ⟨s.trace ++ eraseIterTrace addr Command.Block32Erase, s.nw + 4, s.nr + 2⟩
            (by omega) (by omega) (by omega) (by omega)
          have harg : addr + 32768 + (size - 32768) = addr + size := by omega
          rw [harg] at he
          refine ⟨s2, ?_, ?_⟩
          · show eraseLoop happyEnv (bf + 1) n (addr + 32768) (size - W25QXX_BLOCK32K_SIZE) (addr + size) _ = _
            have : size - W25QXX_BLOCK32K_SIZE = size - 32768 := rfl
            rw [this]; exact he
          · rw [ht]
            rw [greedySchedule, if_neg hz]
            have hc : greedyChoice addr size = (Command.Block32Erase, W25QXX_BLOCK32K_SIZE) := by
              rw [greedyChoice, if_neg h64, if_pos h32]
            simp [hc, eraseTraceOf, List.append_assoc, W25QXX_BLOCK32K_SIZE]
        · have h4k : addr % W25QXX_SECTOR_SIZE = 0 ∧ W25QXX_SECTOR_SIZE ≤ size := by
            refine ⟨?_, ?_⟩
            · show addr % 4096 = 0
              omega
            · show 4096 ≤ size
              omega
          rw [if_neg h32, if_pos h4k, erase_step_happy]
          have hmod : (addr + W25QXX_SECTOR_SIZE) % 4294967296 = addr + 4096 := by
            simp only [W25QXX_SECTOR_SIZE]; omega
          rw [hmod]
          obtain ⟨s2, he, ht⟩ := ih (addr + 4096) (size - 4096)
            ⟨s.trace ++ eraseIterTrace addr Command.SectorErase, s.nw + 4, s.nr + 2⟩
            (by omega) (by omega) (by omega) (by omega)
          have harg : addr + 4096 + (size - 4096) = addr + size := by omega
          rw [harg] at he
          refine ⟨s2, ?_, ?_⟩
          · show eraseLoop happyEnv (bf + 1) n (addr + 4096) (size - W25QXX_SECTOR_SIZE) (addr + size) _ = _
            have : size - W25QXX_SECTOR_SIZE = size - 4096 := rfl
            rw [this]; exact he
          · rw [ht]
            rw [greedySchedule, if_neg hz]
            have hc : greedyChoice addr size = (Command.SectorErase, W25QXX_SECTOR_SIZE) := by
              rw [greedyChoice, if_neg h64, if_neg h32]
            simp [hc, eraseTraceOf, List.append_assoc, W25QXX_SECTOR_SIZE]

end W25qxx

namespace W25qxx

theorem advOf_greedyChoice (addr size : Nat) :
    advOf (greedyChoice addr size).1 = (greedyChoice addr size).2 := by
  rw [greedyChoice]
  split
  · simp [advOf]
  · split
    · simp [advOf, Command.Block32Erase, Command.Block64Erase, W25QXX_BLOCK32K_SIZE]
    · simp [advOf, Command.SectorErase, Command.Block32Erase, Command.Block64Erase,
        W25QXX_SECTOR_SIZE]

theorem greedyChoice_le (addr size : Nat) (h2 : size % 4096 = 0) (hz : size ≠ 0) :
    (greedyChoice addr size).2 ≤ size ∧ (greedyChoice addr size).2 % 4096 = 0 := by
  rw [greedyChoice]
  split
  · next h => exact ⟨h.2, by decide⟩
  · split
    · next h => exact ⟨h.2, by decide⟩
    · refine ⟨?_, by decide⟩
      show 4096 ≤ size
      omega

theorem sumAdv_greedySchedule : ∀ (fuel addr size : Nat),
    size % 4096 = 0 → size ≤ 4096 * fuel → sumAdv (greedySchedule fuel addr size) = size := by
  intro fuel
  induction fuel with
  | zero =>
    intro addr size h2 h4
    have : size = 0 := by omega
    subst this
    simp [greedySchedule, sumAdv]
  | succ n ih =>
    intro addr size h2 h4
    by_cases hz : size = 0
    · subst hz; simp [greedySchedule, sumAdv]
    · rw [greedySchedule, if_neg hz]
      obtain ⟨hle, hmod⟩ := greedyChoice_le addr size h2 hz
      have h64 : (greedyChoice addr size).2 = 65536 ∨ (greedyChoice addr size).2 = 32768 ∨
          (greedyChoice addr size).2 = 4096 := by
        rw [greedyChoice]
        split
        · left; rfl
        · split
          · right; left; rfl
          · right; right; rfl
      have hrec := ih (addr + (greedyChoice addr size).2) (size - (greedyChoice addr size).2)
        (by omega) (by omega)
      simp only [sumAdv, List.map_cons, List.sum_cons] at *
      rw [advOf_greedyChoice, hrec]
      omega

theorem greedySchedule_ops : ∀ (fuel addr size : Nat),
    ∀ p ∈ greedySchedule fuel addr size, eraseOpcode p.2 = true := by
  intro fuel
  induction fuel with
  | zero => intro addr size p hp; simp [greedySchedule] at hp
  | succ n ih =>
    intro addr size p hp
    rw [greedySchedule] at hp
    by_cases hz : size = 0
    · simp [hz] at hp
    · rw [if_neg hz] at hp
      rcases List.mem_cons.mp hp with h | h
      · subst h
        rw [greedyChoice]
        split
        · simp [eraseOpcode, Command.Block64Erase, Command.Block32Erase, Command.SectorErase]
        · split
          · simp [eraseOpcode, Command.Block64Erase, Command.Block32Erase, Command.SectorErase]
          · simp [eraseOpcode, Command.Block64Erase, Command.Block32Erase, Command.SectorErase]
      · exact ih _ _ p h

theorem wire_addr_eq (a : Nat) :
    a / 65536 % 256 * 65536 + a / 256 % 256 * 256 + a % 256 = a % 16777216 := by
  omega

theorem eraseTxns_traceOf : ∀ (l : List (Nat × Nat)),
    (∀ p ∈ l, eraseOpcode p.2 = true) → eraseTxns (eraseTraceOf l) = l.map wireTx := by
  intro l
  induction l with
  | nil => intro _; simp [eraseTraceOf, eraseTxns]
  | cons p t ih =>
    intro hops
    obtain ⟨a, op⟩ := p
    have hop : eraseOpcode op = true := hops (a, op) (List.mem_cons_self _ _)
    have ht := ih (fun q hq => hops q (List.mem_cons_of_mem _ hq))
    simp only [eraseTraceOf, eraseIterTrace, busyTrace, rsrTrace, weTrace, weSuccessTrace,
      cmdTrace, addrBytes, List.append_assoc, List.cons_append, List.nil_append]
    simp [eraseTxns, hop, ht, wireTx, wire_addr_eq a]

end W25qxx

namespace W25qxx

theorem sumAdv_map_wireTx (l : List (Nat × Nat)) : sumAdv (l.map wireTx) = sumAdv l := by
  induction l with
  | nil => rfl
  | cons p t ih => simp [sumAdv, wireTx] at *; omega

/-- C1 (amended): for aligned address and length with address + length
strictly below 2^32, erase succeeds, its erase transactions are exactly the
greedy 64K > 32K > 4K schedule (addresses as their 3-byte wire encoding), and
the advances of the issued transactions sum exactly to the length. -/
theorem erase_greedy_partition (bf addr len : Nat)
    (h1 : addr % 4096 = 0) (h2 : len % 4096 = 0) (h3 : addr + len < 4294967296) :
    ∃ s2, erase happyEnv (bf + 1) addr len St.init = (Out.ok (), s2) ∧
      eraseTxns s2.trace = (greedySchedule (len / 4096 + 1) addr len).map wireTx ∧
      sumAdv (eraseTxns s2.trace) = len := by
  have hcond : ¬ (addr % W25QXX_SECTOR_SIZE ≠ 0 ∨ len % W25QXX_SECTOR_SIZE ≠ 0) := by
    push_neg
    exact ⟨h1, h2⟩
  rw [erase, if_neg hcond]
  have huend : (addr + len % 4294967296) % 4294967296 = addr + len := by omega
  rw [huend]
  have hfuel : len / W25QXX_SECTOR_SIZE + 1 = len / 4096 + 1 := rfl
  rw [hfuel]
  obtain ⟨s2, he, ht⟩ := eraseLoop_happy bf (len / 4096 + 1) addr len St.init h1 h2 h3 (by omega)
  refine ⟨s2, he, ?_, ?_⟩
  · rw [ht]
    show eraseTxns ([] ++ eraseTraceOf (greedySchedule (len / 4096 + 1) addr len)) = _
    rw [List.nil_append]
    exact eraseTxns_traceOf _ (greedySchedule_ops _ addr len)
  · rw [ht]
    show sumAdv (eraseTxns ([] ++ eraseTraceOf (greedySchedule (len / 4096 + 1) addr len))) = len
    rw [List.nil_append, eraseTxns_traceOf _ (greedySchedule_ops _ addr len), sumAdv_map_wireTx]
    exact sumAdv_greedySchedule _ addr len h2 (by omega)

theorem erase_greedy_partition_witness :
    ∃ s2, erase happyEnv 1 0 69632 St.init = (Out.ok (), s2) ∧
      eraseTxns s2.trace = (greedySchedule (69632 / 4096 + 1) 0 69632).map wireTx ∧
      sumAdv (eraseTxns s2.trace) = 69632 :=
  erase_greedy_partition 0 0 69632 (by decide) (by decide) (by decide)

/-- C1 counterexample: address 4294963200 and length 4096 are both 4096-aligned
and their sum is exactly 2^32 (so it does not exceed 2^32), yet `erase` issues
no transaction at all and returns Ok: the advances sum to 0, not 4096. -/
theorem erase_wrap_boundary_cex :
    (4294963200 % 4096 = 0 ∧ 4096 % 4096 = 0 ∧ 4294963200 + 4096 ≤ 4294967296) ∧
    erase happyEnv 1 4294963200 4096 St.init = (Out.ok (), St.init) ∧
    sumAdv (eraseTxns (erase happyEnv 1 4294963200 4096 St.init).2.trace) = 0 := by
  refine ⟨by decide, ?_, ?_⟩ <;> decide

end W25qxx

namespace W25qxx

theorem writeLoop_happy (bf : Nat) : ∀ (fuel addr : Nat) (buf : List Nat) (s : St),
    buf.length ≤ fuel →
    ∃ s2, writeLoop happyEnv (bf + 1) fuel addr buf s = (Out.ok (), s2) ∧
      s2.trace = s.trace ++ writeTraceOf (writeChunks fuel addr buf) := by
  intro fuel
  induction fuel with
  | zero =>
    intro addr buf s hlen
    have : buf = [] := List.length_eq_zero.mp (by omega)
    subst this
    exact ⟨s, by simp [writeLoop, writeChunks, writeTraceOf]⟩
  | succ n ih =>
    intro addr buf s hlen
    by_cases hb : buf = []
    · subst hb
      exact ⟨s, by simp [writeLoop, writeChunks, writeTraceOf]⟩
    · rw [writeLoop, if_neg hb]
      have hpos : 0 < buf.length := List.length_pos.mpr hb
      have hmodlt : addr % 256 < 256 := Nat.mod_lt _ (by norm_num)
      have hws1 : 1 ≤ min (W25QXX_PAGE_SIZE - addr % W25QXX_PAGE_SIZE) buf.length := by
        show 1 ≤ min (256 - addr % 256) buf.length
        omega
      have hcne : buf.take (min (W25QXX_PAGE_SIZE - addr % W25QXX_PAGE_SIZE) buf.length) ≠ [] := by
        apply List.ne_nil_of_length_pos
        rw [List.length_take]
        show 0 < min (min (256 - addr % 256) buf.length) buf.length
        have hx : 1 ≤ min (256 - addr % 256) buf.length := hws1
        omega
      have hclen : (buf.take (min (W25QXX_PAGE_SIZE - addr % W25QXX_PAGE_SIZE) buf.length)).length ≤
          W25QXX_PAGE_SIZE := by
        rw [List.length_take]
        show min (min (256 - addr % 256) buf.length) buf.length ≤ 256
        omega
      rw [busy_wait_happy, andThen]
      rw [page_program_happy addr _ hcne hclen]
      obtain ⟨s2, he, ht⟩ := ih
        ((addr + min (W25QXX_PAGE_SIZE - addr % W25QXX_PAGE_SIZE) buf.length) % 4294967296)
        (buf.drop (min (W25QXX_PAGE_SIZE - addr % W25QXX_PAGE_SIZE) buf.length))
        ⟨(⟨s.trace ++ busyTrace, s.nw + 1, s.nr + 1⟩ : St).trace ++
            (weTrace ++ ppTrace addr (buf.take (min (W25QXX_PAGE_SIZE - addr % W25QXX_PAGE_SIZE) buf.length))),
          s.nw + 1 + 4, s.nr + 1 + 1⟩
        (by
          rw [List.length_drop]
          have hx : 1 ≤ min (256 - addr % 256) buf.length := hws1
          show buf.length - min (256 - addr % 256) buf.length ≤ n
          omega)
      refine ⟨s2, he, ?_⟩
      rw [ht]
      rw [writeChunks, if_neg hb]
      simp only [writeTraceOf, writeIterTrace, List.append_assoc]

end W25qxx

namespace W25qxx

theorem writeChunks_join : ∀ (fuel addr : Nat) (buf : List Nat), buf.length ≤ fuel →
    ((writeChunks fuel addr buf).map Prod.snd).flatten = buf := by
  intro fuel
  induction fuel with
  | zero =>
    intro addr buf hlen
    have : buf = [] := List.length_eq_zero.mp (by omega)
    subst this
    simp [writeChunks]
  | succ n ih =>
    intro addr buf hlen
    by_cases hb : buf = []
    · subst hb; simp [writeChunks]
    · rw [writeChunks, if_neg hb]
      have hpos : 0 < buf.length := List.length_pos.mpr hb
      have hmodlt : addr % 256 < 256 := Nat.mod_lt _ (by norm_num)
      have hws1 : 1 ≤ min (256 - addr % 256) buf.length := by omega
      have hrec := ih
        ((addr + min (W25QXX_PAGE_SIZE - addr % W25QXX_PAGE_SIZE) buf.length) % 4294967296)
        (buf.drop (min (W25QXX_PAGE_SIZE - addr % W25QXX_PAGE_SIZE) buf.length))
        (by
          rw [List.length_drop]
          show buf.length - min (256 - addr % 256) buf.length ≤ n
          omega)
      simp only [List.map_cons, List.flatten_cons, hrec]
      exact List.take_append_drop _ buf

theorem writeChunks_boundary : ∀ (fuel addr : Nat) (buf : List Nat),
    ∀ p ∈ writeChunks fuel addr buf, p.1 % 256 + p.2.length ≤ 256 := by
  intro fuel
  induction fuel with
  | zero => intro addr buf p hp; simp [writeChunks] at hp
  | succ n ih =>
    intro addr buf p hp
    rw [writeChunks] at hp
    by_cases hb : buf = []
    · simp [hb] at hp
    · rw [if_neg hb] at hp
      rcases List.mem_cons.mp hp with h | h
      · subst h
        rw [List.length_take]
        show addr % 256 + min (min (256 - addr % 256) buf.length) buf.length ≤ 256
        have hmodlt : addr % 256 < 256 := Nat.mod_lt _ (by norm_num)
        omega
      · exact ih _ _ p h

theorem writeChunks_first (fuel addr : Nat) (buf : List Nat) (hb : buf ≠ []) :
    ((writeChunks (fuel + 1) addr buf).headD (0, [])).2.length =
      min (256 - addr % 256) buf.length := by
  rw [writeChunks, if_neg hb]
  simp only [List.headD_cons]
  rw [List.length_take]
  show min (min (256 - addr % 256) buf.length) buf.length = min (256 - addr % 256) buf.length
  omega

theorem progTxns_traceOf : ∀ (l : List (Nat × List Nat)),
    progTxns (writeTraceOf l) = l.map wireChunk := by
  intro l
  induction l with
  | nil => simp [writeTraceOf, progTxns]
  | cons p t ih =>
    obtain ⟨a, c⟩ := p
    simp only [writeTraceOf, writeIterTrace, busyTrace, rsrTrace, weTrace, weSuccessTrace,
      ppTrace, addrBytes, List.append_assoc, List.cons_append, List.nil_append]
    simp [progTxns, Command.PageProgram, ih, wireChunk, wire_addr_eq a]

end W25qxx

namespace W25qxx

/-- C2: for every non-empty buffer written at address `addr`, the write loop
succeeds, its page-program transactions are exactly the page chunking of the
buffer (addresses in 3-byte wire encoding), no chunk crosses a 256-byte page
boundary, the first chunk has size min(256 - addr mod 256, L), and the chunks
concatenate back to the buffer. -/
theorem write_page_chunking (bf addr : Nat) (buf : List Nat) (h0 : buf ≠ [])
    (h1 : addr < 4294967296) :
    ∃ s2, write happyEnv (bf + 1) addr buf St.init = (Out.ok (), s2) ∧
      progTxns s2.trace = (writeChunks (buf.length + 1) addr buf).map wireChunk ∧
      ((progTxns s2.trace).map Prod.snd).flatten = buf ∧
      (∀ p ∈ progTxns s2.trace, p.1 % 256 + p.2.length ≤ 256) ∧
      ((progTxns s2.trace).headD (0, [])).2.length = min (256 - addr % 256) buf.length := by
  obtain ⟨s2, he, ht⟩ := writeLoop_happy bf (buf.length + 1) addr buf St.init (by omega)
  have htr : s2.trace = writeTraceOf (writeChunks (buf.length + 1) addr buf) := by
    rw [ht]; rfl
  have hpt : progTxns s2.trace = (writeChunks (buf.length + 1) addr buf).map wireChunk := by
    rw [htr, progTxns_traceOf]
  refine ⟨s2, he, hpt, ?_, ?_, ?_⟩
  · rw [hpt, List.map_map]
    have hsnd : (Prod.snd ∘ wireChunk) = (Prod.snd : Nat × List Nat → List Nat) := by
      funext p; rfl
    rw [hsnd]
    exact writeChunks_join _ addr buf (by omega)
  · intro p hp
    rw [hpt] at hp
    obtain ⟨q, hq, hqp⟩ := List.mem_map.mp hp
    subst hqp
    have hb := writeChunks_boundary (buf.length + 1) addr buf q hq
    have hmm : q.1 % 16777216 % 256 = q.1 % 256 :=
      Nat.mod_mod_of_dvd q.1 (by norm_num)
    show q.1 % 16777216 % 256 + q.2.length ≤ 256
    omega
  · rw [hpt, writeChunks, if_neg h0]
    simp only [List.map_cons, List.headD_cons, wireChunk]
    rw [List.length_take]
    show min (min (256 - addr % 256) buf.length) buf.length = min (256 - addr % 256) buf.length
    omega

theorem write_page_chunking_witness :
    ∃ s2, write happyEnv 1 0 (List.replicate 300 7) St.init = (Out.ok (), s2) ∧
      progTxns s2.trace =
        (writeChunks ((List.replicate 300 7).length + 1) 0 (List.replicate 300 7)).map wireChunk ∧
      ((progTxns s2.trace).map Prod.snd).flatten = List.replicate 300 7 ∧
      (∀ p ∈ progTxns s2.trace, p.1 % 256 + p.2.length ≤ 256) ∧
      ((progTxns s2.trace).headD (0, [])).2.length =
        min (256 - 0 % 256) (List.replicate 300 7).length :=
  write_page_chunking 0 0 (List.replicate 300 7)
    (List.ne_nil_of_length_pos (by rw [List.length_replicate]; omega)) (by norm_num)

end W25qxx

namespace W25qxx

/-- C4: with a misaligned address or length, erase returns the protocol error
with the state (hence the bus trace) completely unchanged: no chip-select
change, no SPI write, no busy-wait happens before the error. -/
theorem erase_misaligned_no_bus (env : Env) (bfuel addr len : Nat) (s : St)
    (h : addr % 4096 ≠ 0 ∨ len % 4096 ≠ 0) :
    erase env bfuel addr len s = (Out.err, s) := by
  have h4 : addr % W25QXX_SECTOR_SIZE ≠ 0 ∨ len % W25QXX_SECTOR_SIZE ≠ 0 := h
  rw [erase, if_pos h4]

theorem erase_misaligned_no_bus_witness :
    erase happyEnv 1 100 4096 St.init = (Out.err, St.init) :=
  erase_misaligned_no_bus happyEnv 1 100 4096 St.init (Or.inl (by decide))

theorem busy_wait_outcomes (env : Env) : ∀ (fuel : Nat) (s : St),
    (busy_wait env fuel s).1 = Out.ok () ∨ (busy_wait env fuel s).1 = Out.crash ∨
      (busy_wait env fuel s).1 = Out.spin := by
  intro fuel
  induction fuel with
  | zero => intro s; simp [busy_wait]
  | succ n ih =>
    intro s
    rcases h : is_busy env s with ⟨r, s1⟩
    rw [busy_wait, h]
    cases r with
    | ok b =>
      cases b with
      | false => simp
      | true => simpa using ih (sleepOp s1)
    | err => simp
    | crash => simp
    | spin => simp

/-- C9: `busy_wait` returns no `Result`: its outcome is never the protocol
error, only success, a panic, or further spinning; and a failing
status-register read inside the poll loop terminates the process (panic)
instead of surfacing an error, as shown by `readFailEnv`. -/
theorem busy_wait_panics_not_propagates :
    (∀ (env : Env) (fuel : Nat) (s : St),
      (busy_wait env fuel s).1 = Out.ok () ∨ (busy_wait env fuel s).1 = Out.crash ∨
        (busy_wait env fuel s).1 = Out.spin) ∧
    (busy_wait readFailEnv 1 St.init).1 = Out.crash := by
  exact ⟨fun env => busy_wait_outcomes env, by decide⟩

/-- C6 (amended): `reset` first waits until the busy bit is clear, then sends
the enable-reset opcode followed by the reset opcode as two raw single-byte
writes with no chip-select assertion or deassertion of its own around them,
and performs no verification (it succeeds unconditionally). -/
theorem reset_no_cs_framing (f : Nat) (s : St) :
    (reset happyEnv (f + 1) s).1 = Out.ok () ∧
    (reset happyEnv (f + 1) s).2.trace =
      s.trace ++ busyTrace ++ [Ev.write [Command.EnableReset] true, Ev.write [Command.Reset] true] ∧
    Ev.csLow ∉ [Ev.write [Command.EnableReset] true, Ev.write [Command.Reset] true] ∧
    Ev.csHigh ∉ [Ev.write [Command.EnableReset] true, Ev.write [Command.Reset] true] := by
  rw [reset_happy]
  exact ⟨rfl, rfl, by decide, by decide⟩

/-- C6 counterexample: in a reset run the two single-byte command writes are
not framed by chip-select transactions: the whole trace contains exactly one
chip-select assertion and one deassertion (those of the busy status read),
not one per transmitted command. -/
theorem reset_cs_framing_cex :
    (reset happyEnv 1 St.init).1 = Out.ok () ∧
    (reset happyEnv 1 St.init).2.trace.drop 4 =
      [Ev.write [Command.EnableReset] true, Ev.write [Command.Reset] true] ∧
    (reset happyEnv 1 St.init).2.trace.count Ev.csLow = 1 ∧
    (reset happyEnv 1 St.init).2.trace.count Ev.csHigh = 1 := by decide

/-- C8: a read into a non-empty buffer is exactly one bus transaction:
chip-select low, the fast-read opcode with the 3-byte big-endian address,
exactly one dummy byte, a read of exactly the buffer length, chip-select
high; a read into an empty buffer is a protocol error with no bus activity. -/
theorem read_single_transaction :
    (∀ (addr n : Nat) (s : St), 0 < n →
      read happyEnv addr n s = (Out.ok (fill n [2]),
        ⟨s.trace ++ [Ev.csLow, Ev.write (Command.FastRead :: addrBytes addr) true,
          Ev.write [0] true, Ev.read (fill n [2]) true, Ev.csHigh], s.nw + 2, s.nr + 1⟩)) ∧
    (∀ (env : Env) (addr : Nat) (s : St), read env addr 0 s = (Out.err, s)) := by
  constructor
  · intro addr n s hn
    have hn0 : n ≠ 0 := by omega
    simp [read, fast_read, spi_transmit_and_receive, spiTarDummy, spiTarRead, spiWrite, spiRead,
      happyEnv, csLowOp, csHighOp, hn0, Nat.add_assoc, List.append_assoc]
  · intro env addr s
    simp [read, fast_read]

theorem read_single_transaction_witness :
    read happyEnv 0 4 St.init = (Out.ok (fill 4 [2]),
      ⟨St.init.trace ++ [Ev.csLow, Ev.write (Command.FastRead :: addrBytes 0) true,
        Ev.write [0] true, Ev.read (fill 4 [2]) true, Ev.csHigh], St.init.nw + 2, St.init.nr + 1⟩) ∧
    read happyEnv 0 0 St.init = (Out.err, St.init) :=
  ⟨read_single_transaction.1 0 4 St.init (by omega),
   read_single_transaction.2 happyEnv 0 St.init⟩

/-- C5 counterexample: when the header write fails, `spi_transmit` returns
the protocol error with chip-select still asserted (no deassertion in its
trace); when the payload write fails, it panics — the failure is not reported
as an `Err` — again without deasserting chip-select.  This refutes the claim
that chip-select is deasserted on every exit path and that every SPI write
failure is reported as a protocol error. -/
theorem spi_transmit_cs_cex :
    (spi_transmit allFailEnv 2 0 [1] St.init).1 = Out.err ∧
    (spi_transmit allFailEnv 2 0 [1] St.init).2.trace =
      [Ev.csLow, Ev.write [2, 0, 0, 0] false] ∧
    Ev.csHigh ∉ (spi_transmit allFailEnv 2 0 [1] St.init).2.trace ∧
    (spi_transmit payloadFailEnv 2 0 [1] St.init).1 = Out.crash ∧
    Ev.csHigh ∉ (spi_transmit payloadFailEnv 2 0 [1] St.init).2.trace := by
  refine ⟨by decide, by decide, by decide, by decide, by decide⟩

/-- C5 (amended): `spi_transmit` never spins; on success its trace ends with
the chip-select deassertion; a header-write failure is reported as the
protocol error with only the assertion and the failed header write appended
(chip-select left asserted); a payload-write failure terminates the process
with only the assertion, the header write and the failed payload write
appended (chip-select left asserted). -/
theorem spi_transmit_exit_paths (env : Env) (cmd addr : Nat) (tx : List Nat) (s : St) :
    ((spi_transmit env cmd addr tx s).1 ≠ Out.spin) ∧
    ((spi_transmit env cmd addr tx s).1 = Out.ok () →
      (spi_transmit env cmd addr tx s).2.trace.getLast? = some Ev.csHigh) ∧
    ((spi_transmit env cmd addr tx s).1 = Out.err →
      env.writeRes s.nw = none ∧
      (spi_transmit env cmd addr tx s).2.trace =
        s.trace ++ [Ev.csLow, Ev.write (cmd :: addrBytes addr) false]) ∧
    ((spi_transmit env cmd addr tx s).1 = Out.crash →
      (spi_transmit env cmd addr tx s).2.trace =
        s.trace ++ [Ev.csLow, Ev.write (cmd :: addrBytes addr) true, Ev.write tx false]) := by
  rcases hw : env.writeRes s.nw with _ | n
  · simp [spi_transmit, spiWrite, hw, csLowOp, List.append_assoc]
  · by_cases hc : n > 0 ∧ tx ≠ []
    · rcases hw2 : env.writeRes (s.nw + 1) with _ | m
      · simp [spi_transmit, spiWrite, hw, hw2, hc, csLowOp, csHighOp, List.append_assoc]
      · simp [spi_transmit, spiWrite, hw, hw2, hc, csLowOp, csHighOp, List.append_assoc,
          List.getLast?_concat]
    · simp [spi_transmit, spiWrite, hw, hc, csLowOp, csHighOp, List.append_assoc,
        List.getLast?_concat]

theorem spi_transmit_exit_paths_witness :
    allFailEnv.writeRes St.init.nw = none ∧
    (spi_transmit allFailEnv 2 0 [1] St.init).2.trace =
      St.init.trace ++ [Ev.csLow, Ev.write (2 :: addrBytes 0) false] :=
  (spi_transmit_exit_paths allFailEnv 2 0 [1] St.init).2.2.1 (by decide)

end W25qxx

namespace W25qxx

theorem fill_one (bs : List Nat) : fill 1 bs = [bs.headD 0] := by
  cases bs <;> simp [fill, List.replicate]

theorem jedec_idEnv (b0 b1 : Nat) :
    spi_transmit_and_receive (idEnv b0 b1) [Command.Jedec, 0, 0, 0] 2 0 St.init =
      (Out.ok [b0, b1],
        ⟨[Ev.csLow, Ev.write [Command.Jedec, 0, 0, 0] true, Ev.read [b0, b1] true, Ev.csHigh],
          1, 1⟩) := by
  simp [spi_transmit_and_receive, spiTarDummy, spiTarRead, spiWrite, spiRead, idEnv, fill,
    csLowOp, csHighOp, St.init, List.replicate]

/-- C7: with the bus delivering identification bytes `[b0, b1]`, `init`
succeeds exactly when they are the expected `{0xEF, 0x17}` and returns the
protocol error exactly otherwise. -/
theorem init_identification (b0 b1 : Nat) :
    ((init (idEnv b0 b1) 1 St.init).1 = Out.ok () ↔ (b0 = 0xEF ∧ b1 = 0x17)) ∧
    ((init (idEnv b0 b1) 1 St.init).1 = Out.err ↔ ¬ (b0 = 0xEF ∧ b1 = 0x17)) := by
  by_cases hc : b0 = 0xEF ∧ b1 = 0x17
  · obtain ⟨h0', h1'⟩ := hc
    subst h0'
    subst h1'
    decide
  · have hcond : [b0, b1].headD 0 ≠ W25QXX_MANID_VALUE ∨
        [b0, b1].getD 1 0 ≠ W25QXX_DEVID_VALUE_128 := by
      by_cases hb0 : b0 = 0xEF
      · right
        show b1 ≠ 0x17
        intro hb1
        exact hc ⟨hb0, hb1⟩
      · left
        exact hb0
    have hj : read_jedec_register (idEnv b0 b1) St.init = (Out.err,
        ⟨[Ev.csLow, Ev.write [Command.Jedec, 0, 0, 0] true, Ev.read [b0, b1] true, Ev.csHigh],
          1, 1⟩) := by
      simp only [read_jedec_register, jedec_idEnv]
      rw [if_pos hcond]
    rw [init, hj]
    constructor
    · simp [andThen, hc]
    · simp [andThen, hc]

def ppHeaderAttempt : Ev → Bool
  | Ev.write (op :: _) _ => op = Command.PageProgram
  | _ => false

theorem writeLoop_outcomes (env : Env) (bfuel : Nat) : ∀ (fuel addr : Nat) (buf : List Nat) (s : St),
    (writeLoop env bfuel fuel addr buf s).1 = Out.ok () ∨
    (writeLoop env bfuel fuel addr buf s).1 = Out.crash ∨
    (writeLoop env bfuel fuel addr buf s).1 = Out.spin := by
  intro fuel
  induction fuel with
  | zero =>
    intro addr buf s
    rw [writeLoop]
    split <;> simp
  | succ n ih =>
    intro addr buf s
    rw [writeLoop]
    by_cases hb : buf = []
    · rw [if_pos hb]; simp
    · rw [if_neg hb]
      have hout := busy_wait_outcomes env bfuel s
      rcases hbw : busy_wait env bfuel s with ⟨rb, s1⟩
      rw [hbw] at hout
      cases rb with
      | ok a =>
        rw [andThen]
        rcases hpp : page_program env addr
            (buf.take (min (W25QXX_PAGE_SIZE - addr % W25QXX_PAGE_SIZE) buf.length)) s1
          with ⟨rp, s2⟩
        cases rp with
        | ok b => simpa using ih _ _ s2
        | err => simpa using ih _ _ s2
        | crash => simp
        | spin => simp
      | err => simp at hout
      | crash => simp [andThen]
      | spin => simp [andThen]

theorem busy_wait_hf (f : Nat) (s : St) (h : s.nw % 4 = 0) :
    busy_wait headerFailEnv (f + 1) s = (Out.ok (), ⟨s.trace ++ busyTrace, s.nw + 1, s.nr + 1⟩) := by
  have h3 : ¬ s.nw % 4 = 3 := by omega
  simp [busy_wait, is_busy, read_status_register, spi_transmit_and_receive, spiTarDummy,
    spiTarRead, spiWrite, spiRead, headerFailEnv, fill, csLowOp, csHighOp, andThen,
    StatusRegister.Busy, busyTrace, rsrTrace, Command.ReadStatusRegister1, h3, List.replicate]

theorem write_enable_hf (s : St) (h : s.nw % 4 = 1) :
    write_enable headerFailEnv s = (Out.ok (), ⟨s.trace ++ weTrace, s.nw + 2, s.nr + 1⟩) := by
  have h3 : ¬ s.nw % 4 = 3 := by omega
  have h3' : ¬ (s.nw + 1) % 4 = 3 := by omega
  simp [write_enable, spi_transmit_and_receive, spiTarDummy, spiTarRead, spiWrite, spiRead,
    headerFailEnv, fill, csLowOp, csHighOp, andThen, is_write_enable, read_status_register,
    StatusRegister.WriteEnable, weTrace, weSuccessTrace, rsrTrace, Command.WriteEnable,
    Command.ReadStatusRegister1, h3, h3', Nat.add_assoc, List.replicate, List.append_assoc]

theorem spiWrite_hf_fail (bs : List Nat) (s : St) (h : s.nw % 4 = 3) :
    spiWrite headerFailEnv bs s =
      (none, { s with trace := s.trace ++ [Ev.write bs false], nw := s.nw + 1 }) := by
  simp [spiWrite, headerFailEnv, h]

theorem page_program_hf (addr : Nat) (chunk : List Nat) (h1 : chunk ≠ [])
    (h2 : chunk.length ≤ W25QXX_PAGE_SIZE) (s : St) (h : s.nw % 4 = 1) :
    page_program headerFailEnv addr chunk s = (Out.err,
      ⟨s.trace ++ weTrace ++ [Ev.csLow, Ev.write (Command.PageProgram :: addrBytes addr) false],
        s.nw + 3, s.nr + 1⟩) := by
  have h3 : ¬ W25QXX_PAGE_SIZE < chunk.length := by omega
  have hh : (s.nw + 2) % 4 = 3 := by omega
  simp [page_program, h1, h3, andThen, write_enable_hf s h, spi_transmit, csLowOp,
    spiWrite_hf_fail, hh, List.append_assoc, Nat.add_assoc]

theorem writeLoop_hf : ∀ (fuel addr : Nat) (buf : List Nat) (s : St),
    s.nw % 4 = 0 → buf.length ≤ fuel →
    (writeLoop headerFailEnv 1 fuel addr buf s).1 = Out.ok () := by
  intro fuel
  induction fuel with
  | zero =>
    intro addr buf s h hlen
    have : buf = [] := List.length_eq_zero.mp (by omega)
    subst this
    simp [writeLoop]
  | succ n ih =>
    intro addr buf s h hlen
    by_cases hb : buf = []
    · subst hb; simp [writeLoop]
    · rw [writeLoop, if_neg hb]
      have hpos : 0 < buf.length := List.length_pos.mpr hb
      have hmodlt : addr % 256 < 256 := Nat.mod_lt _ (by norm_num)
      have hcne : buf.take (min (W25QXX_PAGE_SIZE - addr % W25QXX_PAGE_SIZE) buf.length) ≠ [] := by
        apply List.ne_nil_of_length_pos
        rw [List.length_take]
        show 0 < min (min (256 - addr % 256) buf.length) buf.length
        omega
      have hclen : (buf.take (min (W25QXX_PAGE_SIZE - addr % W25QXX_PAGE_SIZE) buf.length)).length ≤
          W25QXX_PAGE_SIZE := by
        rw [List.length_take]
        show min (min (256 - addr % 256) buf.length) buf.length ≤ 256
        omega
      rw [busy_wait_hf 0 s h, andThen]
      rw [page_program_hf addr _ hcne hclen _ (by simp; omega)]
      apply ih
      · simp
        omega
      · rw [List.length_drop]
        show buf.length - min (256 - addr % 256) buf.length ≤ n
        omega

set_option maxRecDepth 40000 in
/-- C10: `write` never surfaces an error: the loop outcome is never the
protocol error for any oracle, because each `page_program` result is
discarded.  Under `headerFailEnv` every page-program command write fails and
every chunk therefore returns `Err`, yet `write` still returns Ok and keeps
issuing the remaining chunks (two failed page-program headers for a 300-byte
buffer); under `latchClearEnv` every write-enable handshake fails, and
`write` still returns Ok. -/
theorem write_discards_chunk_errors :
    (∀ (env : Env) (bfuel fuel addr : Nat) (buf : List Nat) (s : St),
      (writeLoop env bfuel fuel addr buf s).1 = Out.ok () ∨
      (writeLoop env bfuel fuel addr buf s).1 = Out.crash ∨
      (writeLoop env bfuel fuel addr buf s).1 = Out.spin) ∧
    (∀ (addr : Nat) (buf : List Nat) (s : St), s.nw % 4 = 0 →
      (write headerFailEnv 1 addr buf s).1 = Out.ok ()) ∧
    ((write headerFailEnv 1 0 (List.replicate 300 7) St.init).2.trace.filter ppHeaderAttempt).length = 2 ∧
    (write latchClearEnv 1 0 (List.replicate 300 7) St.init).1 = Out.ok () := by
  refine ⟨fun env bfuel => writeLoop_outcomes env bfuel, ?_, by decide, by decide⟩
  intro addr buf s h
  exact writeLoop_hf (buf.length + 1) addr buf s h (by omega)

theorem write_discards_chunk_errors_witness :
    (write headerFailEnv 1 0 (List.replicate 300 7) St.init).1 = Out.ok () :=
  write_discards_chunk_errors.2.1 0 (List.replicate 300 7) St.init rfl

end W25qxx

namespace W25qxx

/-- Is `op` the opcode of a mutating command (page program or any erase)? -/
def mutating (op : Nat) : Bool :=
  op = Command.PageProgram || op = Command.SectorErase || op = Command.Block32Erase ||
  op = Command.Block64Erase || op = Command.ChipErase

/-- A chip-select assertion immediately followed by a write whose first byte
is a mutating opcode: the start of a mutating bus transaction. -/
def isCmdPair : Ev → Ev → Bool
  | Ev.csLow, Ev.write (op :: _) _ => mutating op
  | _, _ => false

/-- Does the trace contain an adjacent pair starting a mutating transaction? -/
def pairsMut : List Ev → Bool
  | e1 :: e2 :: t => isCmdPair e1 e2 || pairsMut (e2 :: t)
  | _ => false

/-- Every mutating command write in the trace is immediately preceded by a
successful write-enable handshake: the seven events right before its
chip-select assertion are the write-enable transaction followed by a status
read whose answer has the write-enable-latch bit set. -/
def guardedTrace (t : List Ev) : Prop :=
  ∀ (u v : List Ev) (op : Nat) (r : List Nat) (f : Bool),
    t = u ++ Ev.csLow :: Ev.write (op :: r) f :: v → mutating op = true →
      ∃ u0 b, (b &&& 2 ≠ 0) ∧ u = u0 ++ weSuccessTrace b

theorem pairsMut_cons_false {e : Ev} {t : List Ev} (h : pairsMut (e :: t) = false) :
    pairsMut t = false := by
  cases t with
  | nil => rfl
  | cons e2 t2 =>
    rw [pairsMut] at h
    exact (Bool.or_eq_false_iff.mp h).2

theorem pairsMut_decomp : ∀ (u : List Ev) (op : Nat) (r : List Nat) (f : Bool) (v t : List Ev),
    t = u ++ Ev.csLow :: Ev.write (op :: r) f :: v → mutating op = true → pairsMut t = true := by
  intro u
  induction u with
  | nil =>
    intro op r f v t ht hm
    subst ht
    simp [pairsMut, isCmdPair, hm]
  | cons e u' ih =>
    intro op r f v t ht hm
    subst ht
    rcases hu : u' ++ Ev.csLow :: Ev.write (op :: r) f :: v with _ | ⟨e2, t2⟩
    · exact absurd hu (by simp)
    · have hrec := ih op r f v (u' ++ Ev.csLow :: Ev.write (op :: r) f :: v) rfl hm
      rw [hu] at hrec
      show pairsMut (e :: (u' ++ Ev.csLow :: Ev.write (op :: r) f :: v)) = true
      rw [hu, pairsMut, hrec]
      simp

theorem guarded_of_pairsMut_false {t : List Ev} (h : pairsMut t = false) : guardedTrace t := by
  intro u v op r f ht hm
  exact absurd (pairsMut_decomp u op r f v t ht hm) (by simp [h])

theorem guardedTrace_nil : guardedTrace ([] : List Ev) := guarded_of_pairsMut_false rfl

theorem pairsMutOfAppend : ∀ (X Y : List Ev), pairsMut (X ++ Y) = false → pairsMut X = false := by
  intro X
  induction X with
  | nil => intro Y h; rfl
  | cons x X' ih =>
    intro Y h
    cases X' with
    | nil => rfl
    | cons x2 X'' =>
      rw [List.cons_append, List.cons_append, pairsMut] at h
      rw [pairsMut]
      rcases Bool.or_eq_false_iff.mp h with ⟨h1, h2⟩
      rw [h1]
      have := ih Y (by rw [List.cons_append]; exact h2)
      rw [this]
      simp

theorem pairsMut_join : ∀ (X Y : List Ev), pairsMut X = false → pairsMut Y = false →
    (∀ x y, X.getLast? = some x → Y.head? = some y → isCmdPair x y = false) →
    pairsMut (X ++ Y) = false := by
  intro X
  induction X with
  | nil => intro Y _ hY _; simpa using hY
  | cons x X' ih =>
    intro Y hX hY hb
    cases X' with
    | nil =>
      cases Y with
      | nil => simp [pairsMut]
      | cons y Y' =>
        rw [List.singleton_append, pairsMut]
        have hxy : isCmdPair x y = false := hb x y (by simp) (by simp)
        rw [hxy]
        simpa using hY
    | cons x2 X'' =>
      rw [List.cons_append, List.cons_append, pairsMut]
      rw [pairsMut] at hX
      rcases Bool.or_eq_false_iff.mp hX with ⟨h1, h2⟩
      rw [h1]
      have hrec := ih Y h2 hY (by
        intro a y ha hy
        refine hb a y ?_ hy
        rw [List.getLast?_cons_cons]
        exact ha)
      rw [List.cons_append] at hrec
      rw [hrec]
      simp

theorem pairsMut_cons_of {e : Ev} (h : ∀ y, isCmdPair e y = false) {Z : List Ev}
    (hZ : pairsMut Z = false) : pairsMut (e :: Z) = false := by
  cases Z with
  | nil => rfl
  | cons z Z' =>
    rw [pairsMut, h z, hZ]
    rfl

end W25qxx

namespace W25qxx

theorem unique_cmd : ∀ (A u : List Ev) (op : Nat) (r : List Nat) (f : Bool) (B : List Ev)
    (op' : Nat) (r' : List Nat) (f' : Bool) (v : List Ev),
    pairsMut (A ++ [Ev.csLow]) = false →
    pairsMut (Ev.write (op :: r) f :: B) = false →
    A ++ Ev.csLow :: Ev.write (op :: r) f :: B = u ++ Ev.csLow :: Ev.write (op' :: r') f' :: v →
    mutating op' = true →
    u = A := by
  intro A
  induction A with
  | nil =>
    intro u op r f B op' r' f' v hA hB heq hm
    cases u with
    | nil => rfl
    | cons e u' =>
      rw [List.nil_append, List.cons_append] at heq
      injection heq with he heq2
      cases u' with
      | nil =>
        rw [List.nil_append] at heq2
        injection heq2 with hw heq3
        exact absurd hw (by simp)
      | cons e2 u'' =>
        rw [List.cons_append] at heq2
        injection heq2 with he2 heq3
        have hBf : pairsMut B = false := pairsMut_cons_false hB
        have := pairsMut_decomp u'' op' r' f' v B heq3 hm
        rw [this] at hBf
        exact absurd hBf (by simp)
  | cons a A' ih =>
    intro u op r f B op' r' f' v hA hB heq hm
    cases u with
    | nil =>
      rw [List.cons_append, List.nil_append] at heq
      injection heq with ha heq2
      cases A' with
      | nil =>
        rw [List.nil_append] at heq2
        injection heq2 with hw heq3
        exact absurd hw (by simp)
      | cons a2 A'' =>
        rw [List.cons_append] at heq2
        injection heq2 with ha2 heq3
        subst ha
        subst ha2
        rw [List.cons_append, List.cons_append, pairsMut] at hA
        rcases Bool.or_eq_false_iff.mp hA with ⟨h1, _⟩
        rw [isCmdPair] at h1
        rw [hm] at h1
        exact absurd h1 (by simp)
    | cons e u' =>
      rw [List.cons_append] at heq
      rw [List.cons_append] at heq
      injection heq with he heq2
      have hA' : pairsMut (A' ++ [Ev.csLow]) = false := by
        rw [List.cons_append] at hA
        exact pairsMut_cons_false hA
      have := ih u' op r f B op' r' f' v hA' hB heq2 hm
      rw [he, this]

theorem guarded_of_shape (A B : List Ev) (op : Nat) (r : List Nat) (f : Bool)
    (hA : pairsMut (A ++ [Ev.csLow]) = false)
    (hB : pairsMut (Ev.write (op :: r) f :: B) = false)
    (hg : ∃ u0 b, (b &&& 2 ≠ 0) ∧ A = u0 ++ weSuccessTrace b) :
    guardedTrace (A ++ Ev.csLow :: Ev.write (op :: r) f :: B) := by
  intro u v op' r' f' ht hm
  have hu : u = A := unique_cmd A u op r f B op' r' f' v hA hB ht hm
  obtain ⟨u0, b, hb, hA0⟩ := hg
  exact ⟨u0, b, hb, by rw [hu, hA0]⟩

theorem weSuccess_pairs (b : Nat) : pairsMut (weSuccessTrace b ++ [Ev.csLow]) = false := by
  simp [weSuccessTrace, rsrTrace, pairsMut, isCmdPair, mutating, Command.WriteEnable,
    Command.ReadStatusRegister1, Command.PageProgram, Command.SectorErase,
    Command.Block32Erase, Command.Block64Erase, Command.ChipErase]

theorem weSuccess_pairs_self (b : Nat) : pairsMut (weSuccessTrace b) = false :=
  pairsMutOfAppend _ _ (weSuccess_pairs b)

end W25qxx

namespace W25qxx

theorem rsr_pairs (b : Nat) : pairsMut (rsrTrace b ++ [Ev.csLow]) = false := by
  simp [rsrTrace, pairsMut, isCmdPair, mutating, Command.ReadStatusRegister1,
    Command.PageProgram, Command.SectorErase, Command.Block32Erase, Command.Block64Erase,
    Command.ChipErase]

theorem isCmdPair_csHigh (y : Ev) : isCmdPair Ev.csHigh y = false := by
  cases y <;> rfl

theorem isCmdPair_sleep (y : Ev) : isCmdPair Ev.sleep y = false := by
  cases y <;> rfl

theorem write_enable_spec (env : Env) (s : St) :
    ∃ τ, (write_enable env s).2.trace = s.trace ++ τ ∧
      τ.head? = some Ev.csLow ∧
      pairsMut (τ ++ [Ev.csLow]) = false ∧
      ((write_enable env s).1 = Out.ok () → ∃ b, (b &&& 2 ≠ 0) ∧ τ = weSuccessTrace b) := by
  rcases hw1 : env.writeRes s.nw with _ | n1
  · have hwe : write_enable env s =
        (Out.crash, ⟨s.trace ++ [Ev.csLow, Ev.write [Command.WriteEnable] false],
          s.nw + 1, s.nr⟩) := by
      simp [write_enable, spi_transmit_and_receive, spiTarDummy, spiTarRead, spiWrite,
        csLowOp, csHighOp, andThen, hw1]
    rw [hwe]
    exact ⟨_, rfl, rfl, by decide, by intro h; exact Out.noConfusion h⟩
  · rcases hw2 : env.writeRes (s.nw + 1) with _ | n2
    · have hwe : write_enable env s =
          (Out.crash, ⟨s.trace ++ [Ev.csLow, Ev.write [Command.WriteEnable] true, Ev.csHigh,
            Ev.csLow, Ev.write [Command.ReadStatusRegister1] false], s.nw + 2, s.nr⟩) := by
        simp [write_enable, spi_transmit_and_receive, spiTarDummy, spiTarRead, spiWrite,
          csLowOp, csHighOp, andThen, is_write_enable, read_status_register, hw1, hw2,
          List.append_assoc, Nat.add_assoc]
      rw [hwe]
      exact ⟨_, rfl, rfl, by decide, by intro h; exact Out.noConfusion h⟩
    · rcases hr : env.readRes s.nr with _ | bs
      · have hwe : write_enable env s =
            (Out.crash, ⟨s.trace ++ [Ev.csLow, Ev.write [Command.WriteEnable] true, Ev.csHigh,
              Ev.csLow, Ev.write [Command.ReadStatusRegister1] true, Ev.read [] false],
              s.nw + 2, s.nr + 1⟩) := by
          simp [write_enable, spi_transmit_and_receive, spiTarDummy, spiTarRead, spiWrite,
            spiRead, csLowOp, csHighOp, andThen, is_write_enable, read_status_register,
            hw1, hw2, hr, List.append_assoc, Nat.add_assoc]
        rw [hwe]
        exact ⟨_, rfl, rfl, by decide, by intro h; exact Out.noConfusion h⟩
      · by_cases hbit : (bs.head?.getD 0) &&& 2 = 0
        · have hwe : write_enable env s =
              (Out.err, ⟨s.trace ++ weSuccessTrace (bs.head?.getD 0), s.nw + 2, s.nr + 1⟩) := by
            simp [write_enable, spi_transmit_and_receive, spiTarDummy, spiTarRead, spiWrite,
              spiRead, csLowOp, csHighOp, andThen, is_write_enable, read_status_register,
              hw1, hw2, hr, hbit, fill_one, StatusRegister.WriteEnable, weSuccessTrace,
              rsrTrace, List.append_assoc, Nat.add_assoc]
          rw [hwe]
          exact ⟨_, rfl, rfl, weSuccess_pairs _, by intro h; exact Out.noConfusion h⟩
        · have hwe : write_enable env s =
              (Out.ok (), ⟨s.trace ++ weSuccessTrace (bs.head?.getD 0), s.nw + 2, s.nr + 1⟩) := by
            simp [write_enable, spi_transmit_and_receive, spiTarDummy, spiTarRead, spiWrite,
              spiRead, csLowOp, csHighOp, andThen, is_write_enable, read_status_register,
              hw1, hw2, hr, hbit, fill_one, StatusRegister.WriteEnable, weSuccessTrace,
              rsrTrace, List.append_assoc, Nat.add_assoc]
          rw [hwe]
          exact ⟨_, rfl, rfl, weSuccess_pairs _, fun _ => ⟨bs.head?.getD 0, hbit, rfl⟩⟩

theorem busy_wait_seg (env : Env) : ∀ (fuel : Nat) (s : St),
    ∃ τ, (busy_wait env fuel s).2.trace = s.trace ++ τ ∧ pairsMut (τ ++ [Ev.csLow]) = false := by
  intro fuel
  induction fuel with
  | zero => intro s; exact ⟨[], by simp [busy_wait], by decide⟩
  | succ n ih =>
    intro s
    rcases hw1 : env.writeRes s.nw with _ | n1
    · have hib : is_busy env s = (Out.crash,
          ⟨s.trace ++ [Ev.csLow, Ev.write [Command.ReadStatusRegister1] false],
            s.nw + 1, s.nr⟩) := by
        simp [is_busy, read_status_register, spi_transmit_and_receive, spiTarDummy, spiTarRead,
          spiWrite, csLowOp, csHighOp, andThen, hw1]
      rw [busy_wait, hib]
      exact ⟨_, rfl, by decide⟩
    · rcases hr : env.readRes s.nr with _ | bs
      · have hib : is_busy env s = (Out.crash,
            ⟨s.trace ++ [Ev.csLow, Ev.write [Command.ReadStatusRegister1] true, Ev.read [] false],
              s.nw + 1, s.nr + 1⟩) := by
          simp [is_busy, read_status_register, spi_transmit_and_receive, spiTarDummy, spiTarRead,
            spiWrite, spiRead, csLowOp, csHighOp, andThen, hw1, hr, List.append_assoc]
        rw [busy_wait, hib]
        exact ⟨_, rfl, by decide⟩
      · have hib : is_busy env s = (Out.ok (if (bs.head?.getD 0) &&& 1 = 0 then false else true),
            ⟨s.trace ++ rsrTrace (bs.head?.getD 0), s.nw + 1, s.nr + 1⟩) := by
          simp [is_busy, read_status_register, spi_transmit_and_receive, spiTarDummy, spiTarRead,
            spiWrite, spiRead, csLowOp, csHighOp, andThen, hw1, hr, fill_one, rsrTrace,
            StatusRegister.Busy, List.append_assoc]
        by_cases hbusy : (bs.head?.getD 0) &&& 1 = 0
        · rw [busy_wait, hib, if_pos hbusy]
          exact ⟨_, rfl, rsr_pairs _⟩
        · rw [busy_wait, hib, if_neg hbusy]
          obtain ⟨τr, htr, hpr⟩ := ih
            (sleepOp ⟨s.trace ++ rsrTrace (bs.head?.getD 0), s.nw + 1, s.nr + 1⟩)
          refine ⟨rsrTrace (bs.head?.getD 0) ++ (Ev.sleep :: τr), ?_, ?_⟩
          · rw [htr]
            simp [sleepOp, List.append_assoc]
          · rw [List.append_assoc]
            apply pairsMut_join
            · exact pairsMutOfAppend _ _ (rsr_pairs _)
            · show pairsMut (Ev.sleep :: (τr ++ [Ev.csLow])) = false
              exact pairsMut_cons_of isCmdPair_sleep hpr
            · intro x y hx hy
              have : x = Ev.csHigh := by
                simp [rsrTrace] at hx
                exact hx.symm
              rw [this]
              exact isCmdPair_csHigh y
          
end W25qxx

namespace W25qxx

theorem page_program_guarded (env : Env) (a : Nat) (buf : List Nat) (s : St) :
    ∃ τ, (page_program env a buf s).2.trace = s.trace ++ τ ∧ guardedTrace τ := by
  by_cases hv : buf = [] ∨ buf.length = 0 ∨ W25QXX_PAGE_SIZE < buf.length
  · rw [page_program, if_pos hv]
    exact ⟨[], by simp, guardedTrace_nil⟩
  · rw [page_program, if_neg hv]
    obtain ⟨τw, htw, hhw, hpw, hok⟩ := write_enable_spec env s
    rcases hwe : write_enable env s with ⟨rw_, s1⟩
    rw [hwe] at htw hok
    cases rw_ with
    | ok u =>
      rw [andThen]
      obtain ⟨b, hbbit, hτw⟩ := hok rfl
      subst hτw
      rcases hw : env.writeRes s1.nw with _ | n
      · have htx : spi_transmit env Command.PageProgram a buf s1 = (Out.err,
            ⟨s1.trace ++ [Ev.csLow, Ev.write (Command.PageProgram :: addrBytes a) false],
              s1.nw + 1, s1.nr⟩) := by
          simp [spi_transmit, spiWrite, csLowOp, hw, List.append_assoc]
        rw [htx]
        refine ⟨weSuccessTrace b ++
          (Ev.csLow :: Ev.write (Command.PageProgram :: addrBytes a) false :: []), ?_, ?_⟩
        · show s1.trace ++ _ = _
          rw [htw, List.append_assoc]
        · exact guarded_of_shape _ [] _ _ _ (weSuccess_pairs b) rfl ⟨[], b, hbbit, rfl⟩
      · by_cases hc : n > 0 ∧ buf ≠ []
        · rcases hw2 : env.writeRes (s1.nw + 1) with _ | m
          · have htx : spi_transmit env Command.PageProgram a buf s1 = (Out.crash,
                ⟨s1.trace ++ [Ev.csLow, Ev.write (Command.PageProgram :: addrBytes a) true,
                  Ev.write buf false], s1.nw + 2, s1.nr⟩) := by
              simp [spi_transmit, spiWrite, csLowOp, hw, hw2, hc, List.append_assoc,
                Nat.add_assoc]
            rw [htx]
            refine ⟨weSuccessTrace b ++
              (Ev.csLow :: Ev.write (Command.PageProgram :: addrBytes a) true ::
                [Ev.write buf false]), ?_, ?_⟩
            · show s1.trace ++ _ = _
              rw [htw, List.append_assoc]
            · refine guarded_of_shape _ [Ev.write buf false] _ _ _ (weSuccess_pairs b) ?_
                ⟨[], b, hbbit, rfl⟩
              simp [pairsMut, isCmdPair]
          · have htx : spi_transmit env Command.PageProgram a buf s1 = (Out.ok (),
                ⟨s1.trace ++ [Ev.csLow, Ev.write (Command.PageProgram :: addrBytes a) true,
                  Ev.write buf true, Ev.csHigh], s1.nw + 2, s1.nr⟩) := by
              simp [spi_transmit, spiWrite, csLowOp, csHighOp, hw, hw2, hc, List.append_assoc,
                Nat.add_assoc]
            rw [htx]
            refine ⟨weSuccessTrace b ++
              (Ev.csLow :: Ev.write (Command.PageProgram :: addrBytes a) true ::
                [Ev.write buf true, Ev.csHigh]), ?_, ?_⟩
            · show s1.trace ++ _ = _
              rw [htw, List.append_assoc]
            · refine guarded_of_shape _ [Ev.write buf true, Ev.csHigh] _ _ _
                (weSuccess_pairs b) ?_ ⟨[], b, hbbit, rfl⟩
              simp [pairsMut, isCmdPair, isCmdPair_csHigh]
        · have htx : spi_transmit env Command.PageProgram a buf s1 = (Out.ok (),
              ⟨s1.trace ++ [Ev.csLow, Ev.write (Command.PageProgram :: addrBytes a) true,
                Ev.csHigh], s1.nw + 1, s1.nr⟩) := by
            simp [spi_transmit, spiWrite, csLowOp, csHighOp, hw, hc, List.append_assoc]
          rw [htx]
          refine ⟨weSuccessTrace b ++
            (Ev.csLow :: Ev.write (Command.PageProgram :: addrBytes a) true :: [Ev.csHigh]),
            ?_, ?_⟩
          · show s1.trace ++ _ = _
            rw [htw, List.append_assoc]
          · refine guarded_of_shape _ [Ev.csHigh] _ _ _ (weSuccess_pairs b) ?_
              ⟨[], b, hbbit, rfl⟩
            simp [pairsMut, isCmdPair]
    | err =>
      exact ⟨τw, htw, guarded_of_pairsMut_false (pairsMutOfAppend _ _ hpw)⟩
    | crash =>
      exact ⟨τw, htw, guarded_of_pairsMut_false (pairsMutOfAppend _ _ hpw)⟩
    | spin =>
      exact ⟨τw, htw, guarded_of_pairsMut_false (pairsMutOfAppend _ _ hpw)⟩

end W25qxx

namespace W25qxx

theorem erase_cmd_guarded (env : Env) (a c : Nat) (s : St) :
    ∃ τ, (erase_cmd env a c s).2.trace = s.trace ++ τ ∧ guardedTrace τ := by
  rw [erase_cmd]
  obtain ⟨τw, htw, hhw, hpw, hok⟩ := write_enable_spec env s
  rcases hwe : write_enable env s with ⟨rw_, s1⟩
  rw [hwe] at htw hok
  cases rw_ with
  | ok u =>
    rw [andThen]
    obtain ⟨b, hbbit, hτw⟩ := hok rfl
    subst hτw
    rcases hw : env.writeRes s1.nw with _ | n
    · have htx : spi_transmit env c a [] s1 = (Out.err,
          ⟨s1.trace ++ [Ev.csLow, Ev.write (c :: addrBytes a) false], s1.nw + 1, s1.nr⟩) := by
        simp [spi_transmit, spiWrite, csLowOp, hw, List.append_assoc]
      rw [htx]
      refine ⟨weSuccessTrace b ++ (Ev.csLow :: Ev.write (c :: addrBytes a) false :: []), ?_, ?_⟩
      · show s1.trace ++ _ = _
        rw [htw, List.append_assoc]
      · exact guarded_of_shape _ [] _ _ _ (weSuccess_pairs b) rfl ⟨[], b, hbbit, rfl⟩
    · have htx : spi_transmit env c a [] s1 = (Out.ok (),
          ⟨s1.trace ++ [Ev.csLow, Ev.write (c :: addrBytes a) true, Ev.csHigh],
            s1.nw + 1, s1.nr⟩) := by
        simp [spi_transmit, spiWrite, csLowOp, csHighOp, hw, List.append_assoc]
      rw [htx]
      refine ⟨weSuccessTrace b ++ (Ev.csLow :: Ev.write (c :: addrBytes a) true :: [Ev.csHigh]),
        ?_, ?_⟩
      · show s1.trace ++ _ = _
        rw [htw, List.append_assoc]
      · refine guarded_of_shape _ [Ev.csHigh] _ _ _ (weSuccess_pairs b) ?_ ⟨[], b, hbbit, rfl⟩
        simp [pairsMut, isCmdPair]
  | err =>
    exact ⟨τw, htw, guarded_of_pairsMut_false (pairsMutOfAppend _ _ hpw)⟩
  | crash =>
    exact ⟨τw, htw, guarded_of_pairsMut_false (pairsMutOfAppend _ _ hpw)⟩
  | spin =>
    exact ⟨τw, htw, guarded_of_pairsMut_false (pairsMutOfAppend _ _ hpw)⟩

theorem isCmdPair_to_csLow (x : Ev) : isCmdPair x Ev.csLow = false := by
  cases x <;> rfl

theorem chip_erase_guarded (env : Env) (bfuel : Nat) (s : St) :
    ∃ τ, (chip_erase env bfuel s).2.trace = s.trace ++ τ ∧ guardedTrace τ := by
  rw [chip_erase]
  obtain ⟨τb, htb, hpb⟩ := busy_wait_seg env bfuel s
  rcases hbw : busy_wait env bfuel s with ⟨rb, s1⟩
  rw [hbw] at htb
  have htb' : s1.trace = s.trace ++ τb := htb
  cases rb with
  | ok u =>
    rw [andThen]
    obtain ⟨τw, htw, hhw, hpw, hok⟩ := write_enable_spec env s1
    rcases hwe : write_enable env s1 with ⟨rw_, s2⟩
    rw [hwe] at htw hok
    have htw' : s2.trace = s1.trace ++ τw := htw
    have hjoin : pairsMut ((τb ++ τw) ++ [Ev.csLow]) = false := by
      rw [List.append_assoc]
      apply pairsMut_join
      · exact pairsMutOfAppend _ _ hpb
      · rcases τw with _ | ⟨w0, τw2⟩
        · simpa using hpw
        · have hw0 : w0 = Ev.csLow := by
            simp at hhw
            exact hhw
          subst hw0
          exact hpw
      · intro x y hx hy
        rcases τw with _ | ⟨w0, τw2⟩
        · simp at hy
          subst hy
          exact isCmdPair_to_csLow x
        · have hw0 : w0 = Ev.csLow := by
            simp at hhw
            exact hhw
          simp [hw0] at hy
          subst hy
          exact isCmdPair_to_csLow x
    cases rw_ with
    | ok u2 =>
      rw [andThen]
      obtain ⟨b, hbbit, hτw⟩ := hok rfl
      subst hτw
      have hAp : pairsMut ((τb ++ weSuccessTrace b) ++ [Ev.csLow]) = false := by
        rw [List.append_assoc]
        apply pairsMut_join
        · exact pairsMutOfAppend _ _ hpb
        · exact weSuccess_pairs b
        · intro x y hx hy
          have hcs : y = Ev.csLow := by
            simp [weSuccessTrace] at hy
            exact hy.symm
          rw [hcs]
          exact isCmdPair_to_csLow x
      rcases hw : env.writeRes s2.nw with _ | n
      · have htx : spi_transmit_and_receive env [Command.ChipErase] 0 0 s2 = (Out.crash,
            ⟨s2.trace ++ [Ev.csLow, Ev.write [Command.ChipErase] false], s2.nw + 1, s2.nr⟩) := by
          simp [spi_transmit_and_receive, spiTarDummy, spiTarRead, spiWrite, csLowOp,
            csHighOp, hw, List.append_assoc]
        rw [htx, andThen]
        refine ⟨(τb ++ weSuccessTrace b) ++
          (Ev.csLow :: Ev.write (Command.ChipErase :: ([] : List Nat)) false :: []), ?_, ?_⟩
        · show s2.trace ++ _ = _
          rw [htw', htb', List.append_assoc, List.append_assoc, List.append_assoc]
        · exact guarded_of_shape (τb ++ weSuccessTrace b) [] Command.ChipErase [] false
            hAp rfl ⟨τb, b, hbbit, rfl⟩
      · have htx : spi_transmit_and_receive env [Command.ChipErase] 0 0 s2 = (Out.ok [],
            ⟨s2.trace ++ [Ev.csLow, Ev.write [Command.ChipErase] true, Ev.csHigh],
              s2.nw + 1, s2.nr⟩) := by
          simp [spi_transmit_and_receive, spiTarDummy, spiTarRead, spiWrite, csLowOp,
            csHighOp, hw, List.append_assoc]
        rw [htx, andThen]
        refine ⟨(τb ++ weSuccessTrace b) ++
          (Ev.csLow :: Ev.write (Command.ChipErase :: ([] : List Nat)) true :: [Ev.csHigh]),
          ?_, ?_⟩
        · show s2.trace ++ _ = _
          rw [htw', htb', List.append_assoc, List.append_assoc, List.append_assoc]
        · refine guarded_of_shape (τb ++ weSuccessTrace b) [Ev.csHigh] Command.ChipErase [] true
            hAp ?_ ⟨τb, b, hbbit, rfl⟩
          simp [pairsMut, isCmdPair]
    | err =>
      rw [andThen]
      refine ⟨τb ++ τw, ?_, guarded_of_pairsMut_false (pairsMutOfAppend _ _ hjoin)⟩
      rw [htw', htb', List.append_assoc]
    | crash =>
      rw [andThen]
      refine ⟨τb ++ τw, ?_, guarded_of_pairsMut_false (pairsMutOfAppend _ _ hjoin)⟩
      rw [htw', htb', List.append_assoc]
    | spin =>
      rw [andThen]
      refine ⟨τb ++ τw, ?_, guarded_of_pairsMut_false (pairsMutOfAppend _ _ hjoin)⟩
      rw [htw', htb', List.append_assoc]
  | err =>
    exact ⟨τb, htb, guarded_of_pairsMut_false (pairsMutOfAppend _ _ hpb)⟩
  | crash =>
    exact ⟨τb, htb, guarded_of_pairsMut_false (pairsMutOfAppend _ _ hpb)⟩
  | spin =>
    exact ⟨τb, htb, guarded_of_pairsMut_false (pairsMutOfAppend _ _ hpb)⟩

end W25qxx

namespace W25qxx

theorem write_enable_latch_clear (env : Env) (s : St) (bs : List Nat) (n1 n2 : Nat)
    (h1 : env.writeRes s.nw = some n1) (h2 : env.writeRes (s.nw + 1) = some n2)
    (h3 : env.readRes s.nr = some bs) (h4 : bs.head?.getD 0 &&& 2 = 0) :
    (write_enable env s).1 = Out.err := by
  have hwe : write_enable env s =
      (Out.err, ⟨s.trace ++ weSuccessTrace (bs.head?.getD 0), s.nw + 2, s.nr + 1⟩) := by
    simp [write_enable, spi_transmit_and_receive, spiTarDummy, spiTarRead, spiWrite,
      spiRead, csLowOp, csHighOp, andThen, is_write_enable, read_status_register,
      h1, h2, h3, h4, fill_one, StatusRegister.WriteEnable, weSuccessTrace,
      rsrTrace, List.append_assoc, Nat.add_assoc]
  rw [hwe]

/-- C3: for every oracle and every starting state, the bus trace appended by
`page_program`, by `erase_cmd`, and by `chip_erase` is guarded: every
mutating command transaction in it (a chip-select assertion followed by a
write whose opcode is page-program or an erase) is immediately preceded by a
complete write-enable handshake — the write-enable transaction followed by a
status-register-1 read whose answer has the write-enable-latch bit set — so
no mutating command is ever issued without that successful handshake; and
when the latch bit reads back clear, `write_enable` fails with the protocol
error. -/
theorem mutating_commands_guarded :
    (∀ (env : Env) (a : Nat) (buf : List Nat) (s : St), ∃ τ,
      (page_program env a buf s).2.trace = s.trace ++ τ ∧ guardedTrace τ) ∧
    (∀ (env : Env) (a c : Nat) (s : St), ∃ τ,
      (erase_cmd env a c s).2.trace = s.trace ++ τ ∧ guardedTrace τ) ∧
    (∀ (env : Env) (bfuel : Nat) (s : St), ∃ τ,
      (chip_erase env bfuel s).2.trace = s.trace ++ τ ∧ guardedTrace τ) ∧
    (∀ (env : Env) (s : St) (bs : List Nat) (n1 n2 : Nat),
      env.writeRes s.nw = some n1 → env.writeRes (s.nw + 1) = some n2 →
      env.readRes s.nr = some bs → bs.head?.getD 0 &&& 2 = 0 →
      (write_enable env s).1 = Out.err) :=
  ⟨page_program_guarded, erase_cmd_guarded, chip_erase_guarded,
   fun env s bs n1 n2 h1 h2 h3 h4 => write_enable_latch_clear env s bs n1 n2 h1 h2 h3 h4⟩

theorem mutating_commands_guarded_witness :
    (∃ τ, (page_program happyEnv 0 [9] St.init).2.trace = St.init.trace ++ τ ∧ guardedTrace τ) ∧
    (write_enable latchClearEnv St.init).1 = Out.err :=
  ⟨mutating_commands_guarded.1 happyEnv 0 [9] St.init,
   mutating_commands_guarded.2.2.2 latchClearEnv St.init [0] 4 4 rfl rfl rfl (by decide)⟩

end W25qxx

namespace W25qxx

theorem reset_no_cs_framing_witness :
    (reset happyEnv 1 St.init).1 = Out.ok () ∧
    (reset happyEnv 1 St.init).2.trace =
      St.init.trace ++ busyTrace ++
        [Ev.write [Command.EnableReset] true, Ev.write [Command.Reset] true] ∧
    Ev.csLow ∉ [Ev.write [Command.EnableReset] true, Ev.write [Command.Reset] true] ∧
    Ev.csHigh ∉ [Ev.write [Command.EnableReset] true, Ev.write [Command.Reset] true] :=
  reset_no_cs_framing 0 St.init

theorem init_identification_witness :
    ((init (idEnv 0xEF 0x17) 1 St.init).1 = Out.ok () ↔ (0xEF = 0xEF ∧ 0x17 = 0x17)) ∧
    ((init (idEnv 0xEF 0x17) 1 St.init).1 = Out.err ↔ ¬ ((0xEF : Nat) = 0xEF ∧ (0x17 : Nat) = 0x17)) :=
  init_identification 0xEF 0x17

theorem busy_wait_panics_not_propagates_witness :
    (busy_wait readFailEnv 1 St.init).1 = Out.crash :=
  busy_wait_panics_not_propagates.2

end W25qxx
